import Mathlib

/-!
Verification of the benchmark aggregation / comparison / equivalence-check
engine of `circt-synth-tracker` against its specification.

The Python sources are embedded shallowly:

* `analysis/compare_results.py` — `_run_one_cec` (oracle-output
  classification), the ranking-delta rows of `_outlier_table_section`,
  `geo_mean` and the geometric-mean table of `generate_html_report`, and
  `get_category`;
* `analysis/check_cec.py` — `run_cec` and the relevant part of `main`;
* `analysis/append_history.py` — the history update performed by `main`.

External effects are made explicit parameters: the filesystem becomes a
predicate `fs : String → Bool` (`Path.exists`), and the `subprocess.run`
invocation of the ABC oracle becomes a function into `SubprocOutcome`,
which records what the call did (completion with an exit code and the two
output streams, a `TimeoutExpired`, or some other raised exception).
Python dictionaries become association lists in insertion order, JSON
numbers become rationals, and Python's stable `list.sort` becomes
`List.mergeSort` (stable) while `sorted` over a `set` becomes
insertion-sort followed by `dedup`.
-/

namespace CSTracker

/-! ## Python-style string primitives -/

/-- Code-point comparison of two characters, as Python compares the
characters of a string. -/
def charLe (a b : Char) : Bool := a.toNat ≤ b.toNat

/-- Lexicographic `≤` on character lists: Python's `<=` on strings. -/
def lexLe : List Char → List Char → Bool
  | [], _ => true
  | _ :: _, [] => false
  | a :: as, b :: bs =>
    if a.toNat < b.toNat then true
    else if b.toNat < a.toNat then false
    else lexLe as bs

/-- Python's `<=` on strings (used by `sorted` and `list.sort`). -/
def strLe (a b : String) : Bool := lexLe a.toList b.toList

/-- Python's `pat in s` substring test. -/
def containsStr (s pat : String) : Bool := decide (pat.toList <:+: s.toList)

/-- ASCII lowercasing of one character (`A`-`Z` ↦ `a`-`z`). -/
def lowerChar (c : Char) : Char :=
  if 65 ≤ c.toNat ∧ c.toNat ≤ 90 then Char.ofNat (c.toNat + 32) else c

/-- Python's `str.lower()` (restricted to its ASCII action, which is all the
fixed failure marker `"not equivalent"` needs). -/
def pyLower (s : String) : String := String.mk (s.toList.map lowerChar)

/-- Python's `str.splitlines` as used on ABC output (newline-separated). -/
def splitLines (s : String) : List String := s.splitOn "\n"

/-- The `"\n".join(output.strip().splitlines()[-3:])` expression that builds
the diagnostic detail for an `error` verdict: the last (up to) three lines of
the stripped output. -/
def lastThreeLines (output : String) : String :=
  let t := output.trim
  let ls := splitLines t
  String.intercalate "\n" (ls.drop (ls.length - 3))

/-! ## Oracle invocation model (`_run_one_cec`, compare_results.py 22-42) -/

/-- The five verdict strings that `run_cec` files benchmarks under. -/
inductive Verdict where
  | equivalent
  | not_equivalent
  | missing
  | error
  | timeout
deriving DecidableEq, Repr

/-- What `subprocess.run([abc, "-c", ...], capture_output=True, text=True,
timeout=30)` did: normal completion (with exit code and captured streams),
`subprocess.TimeoutExpired`, or any other raised exception. -/
inductive SubprocOutcome where
  | completed (exitCode : Int) (stdout stderr : String)
  | timeoutExpired
  | raised (msg : String)
deriving DecidableEq

/-- The 4-tuple `(benchmark_name, status, detail, output)` returned by
`_run_one_cec`. -/
structure CecResult where
  benchmark : String
  status : Verdict
  detail : Option String
  output : String
deriving DecidableEq

/-- Shallow embedding of `_run_one_cec` (compare_results.py lines 22-42),
with the subprocess call abstracted into its `SubprocOutcome`. The `abc`,
`aig1`, `aig2` arguments only feed the command line, so they do not appear
in the classification. -/
def _run_one_cec (abc benchmark_name aig1 aig2 : String)
    (outcome : SubprocOutcome) : CecResult :=
  match outcome with
  | .completed _ stdout stderr =>
    let output := stdout ++ stderr
    if containsStr output "Networks are equivalent" then
      ⟨benchmark_name, .equivalent, none, output⟩
    else if containsStr output "Networks are NOT"
        || containsStr (pyLower output) "not equivalent" then
      ⟨benchmark_name, .not_equivalent, none, output⟩
    else
      let detail := if output.trim = "" then "" else lastThreeLines output
      ⟨benchmark_name, .error, some ("unexpected output: " ++ detail), output⟩
  | .timeoutExpired => ⟨benchmark_name, .timeout, some "timeout", ""⟩
  | .raised msg => ⟨benchmark_name, .error, some msg, ""⟩

/-! ## Summary files and per-benchmark data -/

/-- The per-benchmark metrics object inside a summary file: the value at the
`"filename"` key, the value at the `"category"` key (both `none` when the key
is absent), and the remaining numeric metrics. -/
structure BenchData where
  filename : Option String
  category : Option String
  metrics : List (String × ℚ)
deriving DecidableEq

/-- A loaded summary JSON object, with the keys the engine reads:
`tool`, `version` (both optional) and the `benchmarks` mapping
(`summary.get("benchmarks", {})` makes an absent key an empty mapping, so an
empty list loses nothing). -/
structure Summary where
  tool : Option String
  version : Option String
  benchmarks : List (String × BenchData)
deriving DecidableEq

/-! ## History tracker (append_history.py `main`, lines 54-70) -/

/-- One element of the history JSON array. The `date` key may be absent in a
pre-existing file (`e.get("date")`), hence an `Option`; entries written by
the tool always carry one. -/
structure HistoryEntry where
  date : Option String
  circt_version : String
  yosys_version : String
  circt_benchmarks : List (String × BenchData)
  yosys_benchmarks : List (String × BenchData)
deriving DecidableEq

/-- The `entry` dict built in append_history.py lines 56-62. -/
def mkEntry (date : String) (circt yosys : Summary) : HistoryEntry :=
  { date := some date
    circt_version := circt.version.getD "unknown"
    yosys_version := yosys.version.getD "unknown"
    circt_benchmarks := circt.benchmarks
    yosys_benchmarks := yosys.benchmarks }

/-- The sort key `e.get("date", "")` of line 67. -/
def dateKey (e : HistoryEntry) : String := e.date.getD ""

/-- The comparison `history.sort(key=...)` sorts by. -/
def entryLe (a b : HistoryEntry) : Bool := strLe (dateKey a) (dateKey b)

/-- Shallow embedding of the history update of append_history.py lines
64-70: drop any entry for the same date, append the new entry, re-sort
ascending by date string (Python's `list.sort` is stable, as is
`List.mergeSort`), and, when `max_days > 0`, keep only the last `max_days`
entries (`history[-max_days:]`). -/
def append_history (history : List HistoryEntry) (date : String)
    (circt yosys : Summary) (max_days : Int) : List HistoryEntry :=
  let entry := mkEntry date circt yosys
  let filtered := history.filter (fun e => decide (e.date ≠ some date))
  let sorted := (filtered ++ [entry]).mergeSort entryLe
  if max_days > 0 then sorted.drop (sorted.length - max_days.toNat) else sorted

/-! ## Ranking deltas (`_outlier_table_section`, compare_results.py 251-262) -/

/-- Python's banker's rounding (round half to even) of a rational to an
integer. -/
def roundHalfEven (q : ℚ) : ℤ :=
  let f := ⌊q⌋
  let r := q - f
  if r < 1 / 2 then f
  else if 1 / 2 < r then f + 1
  else if Even f then f else f + 1

/-- Python's `round(x, 2)` on exact rationals. -/
def round2 (q : ℚ) : ℚ := (roundHalfEven (q * 100) : ℚ) / 100

/-- The per-metric cell of one ranking row, compare_results.py line 261:
`round((cv - bv) / bv * 100, 2) if bv and cv and bv > 0 else None`, where
`bv`/`cv` are `bd.get(mk)`/`cd.get(mk)` (absent key gives `None`, and Python
truthiness makes both `None` and `0` falsy). -/
def rankingDelta (bv cv : Option ℚ) : Option ℚ :=
  match bv, cv with
  | some b, some c =>
    if b ≠ 0 ∧ c ≠ 0 ∧ 0 < b then some (round2 ((c - b) / b * 100)) else none
  | _, _ => none

/-! ## Geometric mean (`geo_mean`, compare_results.py 1104-1108) -/

/-- The comprehension `[v for v in values if v and v > 0]` of `geo_mean`. -/
def validValues (values : List ℚ) : List ℚ :=
  values.filter (fun v => decide (v ≠ 0) && decide (0 < v))

/-- Shallow embedding of `geo_mean` (compare_results.py 1104-1108) over
exact reals: `math.exp(sum(math.log(v) for v in valid) / len(valid))`, and
the sentinel `0` when no positive values remain. -/
noncomputable def geo_mean (values : List ℚ) : ℝ :=
  let valid := validValues values
  if valid = [] then 0
  else Real.exp (((valid.map (fun v => Real.log (v : ℝ))).sum) / valid.length)

/-! ## Category assignment (`get_category`, compare_results.py 580-588) -/

/-- Shallow embedding of `get_category`: scan the summaries in order, and
for the first one whose `benchmarks` mapping carries the benchmark return
the value of that data's `"category"` key — `none` models the `KeyError`
that `benchmark_data["category"]` raises when the key is absent. The
`"Other"` default is reached only when no summary carries the benchmark. -/
def get_category (benchmark_name : String)
    (summaries : List (String × Summary)) : Option String :=
  match summaries.find?
      (fun ts => (ts.2.benchmarks.lookup benchmark_name).isSome) with
  | some ts => (ts.2.benchmarks.lookup benchmark_name).bind
      (fun bd => bd.category)
  | none => some "Other"

/-! ## Geometric-mean table (generate_html_report, compare_results.py
1110-1131 and 1184-1209) -/

/-- The metric access `b.get(metric_key, 0)` on one benchmark's merged
metrics. -/
def metricValue (bd : BenchData) (key : String) : ℚ :=
  (bd.metrics.lookup key).getD 0

/-- Dict indexing `summaries[tool]` (keys of a Python dict are unique, so
the first binding is the binding). -/
def lookupSummary (summaries : List (String × Summary)) (tool : String) :
    Summary :=
  (summaries.lookup tool).getD ⟨none, none, []⟩

/-- Lines 1111-1116 with 1130: the overall value list of the baseline tool,
`[b.get(metric_key, 0) for b in summaries[tool_names[0]].get("benchmarks",
{}).values()]` — every benchmark the tool reports. -/
def overallBaselineValues (summaries : List (String × Summary))
    (key : String) : List ℚ :=
  match summaries.map Prod.fst with
  | t0 :: _ =>
    (lookupSummary summaries t0).benchmarks.map (fun nb => metricValue nb.2 key)
  | [] => []

/-- Lines 1114-1116 with 1131: the overall value list of the comparison
tool (`tool_names[1]`). -/
def overallCompareValues (summaries : List (String × Summary))
    (key : String) : List ℚ :=
  match summaries.map Prod.fst with
  | _ :: t1 :: _ =>
    (lookupSummary summaries t1).benchmarks.map (fun nb => metricValue nb.2 key)
  | _ => []

/-- The grouping of lines 590-596: the benchmarks of `all_benchmarks`
assigned to one category, in traversal order. -/
def benchmarksOfCategory (all_benchmarks : List String)
    (summaries : List (String × Summary)) (cat : String) : List String :=
  all_benchmarks.filter (fun n => decide (get_category n summaries = some cat))

/-- Lines 1186-1206: the per-category value list of one tool — the
category's benchmarks that appear in that tool's own mapping, each
contributing `b.get(metric_key, 0)`. -/
def categoryValues (catNames : List String) (s : Summary) (key : String) :
    List ℚ :=
  (catNames.filterMap (fun n => s.benchmarks.lookup n)).map
    (fun bd => metricValue bd key)

/-! ## Equivalence check (`run_cec`, check_cec.py 18-124) -/

/-- The artifact path one summary records for one benchmark, after Python
truthiness: `bdata.get("filename")` followed by `if aig_path:` — absent
benchmark, absent key, or empty string all fail the test. -/
def aigOf (s : Summary) (name : String) : Option String :=
  match (s.benchmarks.lookup name).bind (fun bd => bd.filename) with
  | some p => if p = "" then none else some p
  | none => none

/-- The fate of one benchmark in the dispatch loop of check_cec.py lines
43-66: skipped as `missing`, or checked with the two recorded paths. -/
inductive Dispatch where
  | missing
  | check (aig1 aig2 : String)
deriving DecidableEq

/-- Lines 43-66 for one benchmark: `missing` when either of the first two
tools lacks a truthy `filename` (`len(aig_files) < 2`) or either recorded
path fails `Path(p).exists()` (the filesystem parameter `fs`); otherwise
the pair `(aig1, aig2)` goes to `to_check`. -/
def dispatchOf (s0 s1 : Summary) (fs : String → Bool) (name : String) :
    Dispatch :=
  match aigOf s0 name, aigOf s1 name with
  | some a1, some a2 => if fs a1 && fs a2 then .check a1 a2 else .missing
  | _, _ => .missing

/-- Python's `sorted(benchmark_name_set)`: the distinct names in ascending
string order. Any correct sort of the distinct elements embeds `sorted`
over a set, so insertion sort is used (it is fully reducible); `dedup`
keeps one occurrence of each name and preserves the order. -/
def sortedNames (names : List String) : List String :=
  (names.insertionSort (fun a b => strLe a b = true)).dedup

/-- Lines 34-36: the benchmark universe is the union of the benchmark names
of every loaded summary (not only the first two), then traversed in sorted
order (line 43). -/
def allBenchmarks (summaries : List (String × Summary)) : List String :=
  sortedNames (summaries.flatMap (fun ts => ts.2.benchmarks.map Prod.fst))

/-- The verdict one benchmark ends up with: `missing` from the dispatch
loop, or the status `_run_one_cec` returns for its pair. -/
def verdictOf (s0 s1 : Summary) (fs : String → Bool) (abc : String)
    (oracle : String → String → String → SubprocOutcome) (name : String) :
    Verdict :=
  match dispatchOf s0 s1 fs name with
  | .missing => .missing
  | .check a1 a2 => (_run_one_cec abc name a1 a2 (oracle name a1 a2)).status

/-- The construction of the `results` lists and the final `status_map` of
check_cec.py lines 40-124, for given first-two summaries `s0`, `s1` and the
benchmark universe `allB` traversed in order: the skip loop (lines 43-66)
splits `allB` into the `missing` list and `to_check`; one `_run_one_cec`
call per `to_check` triple gives `cec_results` (lines 68-87 — the parallel
branch stores each result back at its dispatch index, so both branches
yield this list); lines 89-103 bucket the results (the `error` bucket is
the `else` arm); lines 119-123 flatten the buckets in the `results` dict
insertion order `equivalent`, `not_equivalent`, `missing`, `error`,
`timeout`. -/
def status_map (s0 s1 : Summary) (allB : List String) (fs : String → Bool)
    (abc : String)
    (oracle : String → String → String → SubprocOutcome) :
    List (String × Verdict) :=
  let missingNames := allB.filter
    (fun n => decide (dispatchOf s0 s1 fs n = .missing))
  let toCheck := allB.filterMap (fun n =>
    match dispatchOf s0 s1 fs n with
    | .check a1 a2 => some (n, a1, a2)
    | .missing => none)
  let cecResults := toCheck.map
    (fun x => _run_one_cec abc x.1 x.2.1 x.2.2 (oracle x.1 x.2.1 x.2.2))
  let equivalentNames := (cecResults.filter
    (fun r => decide (r.status = .equivalent))).map CecResult.benchmark
  let notEquivalentNames := (cecResults.filter
    (fun r => decide (r.status = .not_equivalent))).map CecResult.benchmark
  let timeoutNames := (cecResults.filter
    (fun r => decide (r.status = .timeout))).map CecResult.benchmark
  let errorNames := (cecResults.filter
    (fun r => decide (r.status ≠ .equivalent ∧ r.status ≠ .not_equivalent ∧
      r.status ≠ .timeout))).map CecResult.benchmark
  equivalentNames.map (fun n => (n, Verdict.equivalent))
    ++ notEquivalentNames.map (fun n => (n, Verdict.not_equivalent))
    ++ missingNames.map (fun n => (n, Verdict.missing))
    ++ errorNames.map (fun n => (n, Verdict.error))
    ++ timeoutNames.map (fun n => (n, Verdict.timeout))

/-- Shallow embedding of `run_cec` (check_cec.py lines 29-124) after a
successful `find_abc`: fewer than two tools gives the empty map (lines
29-32); otherwise the first two tools are resolved from the summaries dict,
the benchmark universe is the sorted union over all summaries, and the
`status_map` is built as above. -/
def run_cec (summaries : List (String × Summary)) (fs : String → Bool)
    (abc : String)
    (oracle : String → String → String → SubprocOutcome) :
    List (String × Verdict) :=
  match summaries.map Prod.fst with
  | t0 :: t1 :: _ =>
    status_map ((summaries.lookup t0).getD ⟨none, none, []⟩)
      ((summaries.lookup t1).getD ⟨none, none, []⟩)
      (allBenchmarks summaries) fs abc oracle
  | _ => []

/-- The stderr diagnostic `run_cec` prints before returning the empty map
when fewer than two tools are loaded (check_cec.py lines 29-32). -/
def run_cec_config_error (summaries : List (String × Summary)) :
    Option String :=
  if (summaries.map Prod.fst).length < 2 then
    some "Error: Need at least 2 tools for equivalence check"
  else none

/-- The exit status of check_cec.py `main` on the path where both summary
files loaded (lines 159-169): `run_cec`'s result — whatever it is — is
serialized and `main` returns 0. -/
def check_cec_main_exit (summaries : List (String × Summary))
    (fs : String → Bool) (abc : String)
    (oracle : String → String → String → SubprocOutcome) : Int :=
  let _ := run_cec summaries fs abc oracle
  0

/-! ## Theorems -/

theorem lexLe_total (a b : List Char) : lexLe a b = true ∨ lexLe b a = true := by
  induction a generalizing b with
  | nil => left; rfl
  | cons x xs ih =>
    cases b with
    | nil => right; rfl
    | cons y ys =>
      by_cases hxy : x.toNat < y.toNat
      · left; simp [lexLe, hxy]
      · by_cases hyx : y.toNat < x.toNat
        · right; simp [lexLe, hyx]
        · have := ih ys
          rcases this with h | h
          · left; simp [lexLe, hxy, hyx, h]
          · right; simp [lexLe, hyx, hxy, h]

theorem lexLe_trans {a b c : List Char} (hab : lexLe a b = true)
    (hbc : lexLe b c = true) : lexLe a c = true := by
  induction a generalizing b c with
  | nil => rfl
  | cons x xs ih =>
    cases b with
    | nil => simp [lexLe] at hab
    | cons y ys =>
      cases c with
      | nil => simp [lexLe] at hbc
      | cons z zs =>
        simp only [lexLe] at hab hbc ⊢
        by_cases hxy : x.toNat < y.toNat
        · by_cases hyz : y.toNat < z.toNat
          · simp [Nat.lt_trans hxy hyz]
          · by_cases hzy : z.toNat < y.toNat
            · simp [hyz, hzy] at hbc
            · have : y.toNat = z.toNat := Nat.le_antisymm (Nat.le_of_not_lt hzy) (Nat.le_of_not_lt hyz)
              simp [this ▸ hxy]

        · by_cases hyx : y.toNat < x.toNat
          · simp [hxy, hyx] at hab
          · have hxyeq : x.toNat = y.toNat := Nat.le_antisymm (Nat.le_of_not_lt hyx) (Nat.le_of_not_lt hxy)
            simp only [hxy, if_neg, hyx, if_false, if_true] at hab
            by_cases hyz : y.toNat < z.toNat
            · simp [hxyeq ▸ hyz]
            · by_cases hzy : z.toNat < y.toNat
              · simp [hyz, hzy] at hbc
              · simp only [hyz, hzy, if_false] at hbc
                simp only [hxyeq ▸ hyz, hxyeq ▸ hzy, if_false]
                simp [ih hab hbc]

theorem lexLe_antisymm {a b : List Char} (hab : lexLe a b = true)
    (hba : lexLe b a = true) : a = b := by
  induction a generalizing b with
  | nil =>
    cases b with
    | nil => rfl
    | cons y ys => simp [lexLe] at hba
  | cons x xs ih =>
    cases b with
    | nil => simp [lexLe] at hab
    | cons y ys =>
      simp only [lexLe] at hab hba
      by_cases hxy : x.toNat < y.toNat
      · simp [Nat.lt_asymm hxy, Nat.lt_irrefl, hxy] at hba
      · by_cases hyx : y.toNat < x.toNat
        · simp [hxy, hyx] at hab
        · have hxyeq : x.toNat = y.toNat := Nat.le_antisymm (Nat.le_of_not_lt hyx) (Nat.le_of_not_lt hxy)
          have hchar : x = y := Char.eq_of_val_eq (UInt32.ext hxyeq)
          simp only [hxy, hyx, if_false] at hab hba
          rw [hchar, ih hab hba]

theorem strLe_total (a b : String) : strLe a b = true ∨ strLe b a = true :=
  lexLe_total _ _

theorem strLe_trans {a b c : String} (hab : strLe a b = true)
    (hbc : strLe b c = true) : strLe a c = true :=
  lexLe_trans hab hbc

theorem strLe_antisymm {a b : String} (hab : strLe a b = true)
    (hba : strLe b a = true) : a = b := by
  have h := lexLe_antisymm hab hba
  cases a; cases b
  simpa [String.toList] using congrArg String.mk h

theorem entryLe_trans (a b c : HistoryEntry) (hab : entryLe a b = true)
    (hbc : entryLe b c = true) : entryLe a c = true :=
  strLe_trans hab hbc

theorem entryLe_total (a b : HistoryEntry) :
    (entryLe a b || entryLe b a) = true := by
  rcases strLe_total (dateKey a) (dateKey b) with h | h <;>
    simp [entryLe, h]

theorem entryLe_antisymm {a b : HistoryEntry} (hab : entryLe a b = true)
    (hba : entryLe b a = true) : dateKey a = dateKey b :=
  strLe_antisymm hab hba

/-- C6: the verdict of one oracle invocation is classified only from the
combined stdout+stderr text, never from the exit code: the classification is
invariant under the exit code; the success marker yields `equivalent`; a
failure marker (without the success marker) yields `not_equivalent`; any
other completed output yields `error` carrying the last (up to) three lines
of the stripped output as diagnostic detail; and `TimeoutExpired` yields
`timeout`. -/
theorem run_one_cec_classifies_output (abc bench aig1 aig2 : String) :
    (∀ ec ec2 stdout stderr,
        _run_one_cec abc bench aig1 aig2 (.completed ec stdout stderr)
          = _run_one_cec abc bench aig1 aig2 (.completed ec2 stdout stderr)) ∧
    (∀ ec stdout stderr,
        containsStr (stdout ++ stderr) "Networks are equivalent" = true →
        (_run_one_cec abc bench aig1 aig2 (.completed ec stdout stderr)).status
          = .equivalent) ∧
    (∀ ec stdout stderr,
        containsStr (stdout ++ stderr) "Networks are equivalent" = false →
        (containsStr (stdout ++ stderr) "Networks are NOT" = true ∨
          containsStr (pyLower (stdout ++ stderr)) "not equivalent" = true) →
        (_run_one_cec abc bench aig1 aig2 (.completed ec stdout stderr)).status
          = .not_equivalent) ∧
    (∀ ec stdout stderr,
        containsStr (stdout ++ stderr) "Networks are equivalent" = false →
        containsStr (stdout ++ stderr) "Networks are NOT" = false →
        containsStr (pyLower (stdout ++ stderr)) "not equivalent" = false →
        (_run_one_cec abc bench aig1 aig2 (.completed ec stdout stderr)).status
            = .error ∧
          (_run_one_cec abc bench aig1 aig2 (.completed ec stdout stderr)).detail
            = some ("unexpected output: "
                ++ (if (stdout ++ stderr).trim = "" then ""
                    else lastThreeLines (stdout ++ stderr)))) ∧
    (_run_one_cec abc bench aig1 aig2 .timeoutExpired).status = .timeout := by
  refine ⟨?_, ?_, ?_, ?_, rfl⟩
  · intro ec ec2 stdout stderr
    simp only [_run_one_cec]
  · intro ec stdout stderr h
    simp [_run_one_cec, h]
  · intro ec stdout stderr h hfail
    rcases hfail with hf | hf <;> simp [_run_one_cec, h, hf]
  · intro ec stdout stderr h h1 h2
    simp [_run_one_cec, h, h1, h2]

/-- Witness for `run_one_cec_classifies_output` at concrete outputs: the
success marker, a failure marker, garbage output, and a timeout. -/
theorem run_one_cec_classifies_output_witness :
    (_run_one_cec "abc" "b" "a1" "a2"
        (.completed 0 "Networks are equivalent" "")).status = .equivalent ∧
    (_run_one_cec "abc" "b" "a1" "a2"
        (.completed 0 "Networks are NOT equal" "")).status = .not_equivalent ∧
    (_run_one_cec "abc" "b" "a1" "a2"
        (.completed 1 "garbage" "")).status = .error ∧
    (_run_one_cec "abc" "b" "a1" "a2" .timeoutExpired).status = .timeout := by
  refine ⟨?_, ?_, ?_,
    (run_one_cec_classifies_output "abc" "b" "a1" "a2").2.2.2.2⟩
  · exact (run_one_cec_classifies_output "abc" "b" "a1" "a2").2.1 0
      "Networks are equivalent" "" (by decide)
  · exact (run_one_cec_classifies_output "abc" "b" "a1" "a2").2.2.1 0
      "Networks are NOT equal" "" (by decide) (Or.inl (by decide))
  · exact ((run_one_cec_classifies_output "abc" "b" "a1" "a2").2.2.2.1 1
      "garbage" "" (by decide) (by decide) (by decide)).1

/-- C10: `_run_one_cec` is total: for every oracle executable path, benchmark
name, artifact paths and subprocess outcome (completion, timeout, or any
raised exception) it returns a result tuple carrying the benchmark name,
with a status drawn from {equivalent, not_equivalent, timeout, error};
exceptions are absorbed into the `error` status, never propagated. -/
theorem run_one_cec_is_total (abc bench aig1 aig2 : String)
    (outcome : SubprocOutcome) :
    (_run_one_cec abc bench aig1 aig2 outcome).benchmark = bench ∧
    ((_run_one_cec abc bench aig1 aig2 outcome).status = .equivalent ∨
     (_run_one_cec abc bench aig1 aig2 outcome).status = .not_equivalent ∨
     (_run_one_cec abc bench aig1 aig2 outcome).status = .timeout ∨
     (_run_one_cec abc bench aig1 aig2 outcome).status = .error) := by
  cases outcome with
  | completed ec stdout stderr =>
    simp only [_run_one_cec]
    split
    · exact ⟨rfl, Or.inl rfl⟩
    · split
      · exact ⟨rfl, Or.inr (Or.inl rfl)⟩
      · exact ⟨rfl, Or.inr (Or.inr (Or.inr rfl))⟩
  | timeoutExpired => exact ⟨rfl, Or.inr (Or.inr (Or.inl rfl))⟩
  | raised msg => exact ⟨rfl, Or.inr (Or.inr (Or.inr rfl))⟩

/-- Re-insertion into a sorted list: if `u ++ e :: v` is sorted and `e`
compares strictly after every element of `u` and strictly before every
element of `v`, then sorting `(u ++ v) ++ [e]` restores `u ++ e :: v`.
The strictness makes the position of `e` unique, so no stability argument
is needed. -/
theorem mergeSort_reinsert {α : Type} [DecidableEq α] (le : α → α → Bool)
    (htrans : ∀ a b c, le a b = true → le b c = true → le a c = true)
    (htotal : ∀ a b, (le a b || le b a) = true)
    (u v : List α) (e : α)
    (hsorted : (u ++ e :: v).Pairwise (fun a b => le a b = true))
    (hu : ∀ a ∈ u, le e a = false)
    (hv : ∀ b ∈ v, le b e = false) :
    ((u ++ v) ++ [e]).mergeSort le = u ++ e :: v := by
  have hee : le e e = true := by
    have := htotal e e
    simpa using this
  have heu : e ∉ u := fun he => by simpa [hee] using hu e he
  have hev : e ∉ v := fun he => by simpa [hee] using hv e he
  set M := ((u ++ v) ++ [e]).mergeSort le with hM
  have hMperm : M.Perm ((u ++ v) ++ [e]) := List.mergeSort_perm _ _
  have hMsorted : M.Pairwise (fun a b => le a b = true) :=
    List.sorted_mergeSort htrans htotal _
  have hcount : M.count e = 1 := by
    rw [hMperm.count_eq e]
    simp [List.count_append, List.count_eq_zero.mpr heu, List.count_eq_zero.mpr hev]
  have heM : e ∈ M := List.count_pos_iff.mp (by omega)
  obtain ⟨x, y, hxy⟩ := List.append_of_mem heM
  have hex : e ∉ x := by
    intro hex
    rw [hxy] at hcount
    have hx1 : 1 ≤ x.count e := List.count_pos_iff.mpr hex
    simp [List.count_append] at hcount
    omega
  have hey' : e ∉ y := by
    intro hey
    rw [hxy] at hcount
    have hy1 : 1 ≤ y.count e := List.count_pos_iff.mpr hey
    simp [List.count_append] at hcount
    omega
  have hsplit := hxy ▸ hMsorted
  rw [List.pairwise_append] at hsplit
  obtain ⟨hxpw, heypw, hcross⟩ := hsplit
  rw [List.pairwise_cons] at heypw
  obtain ⟨hey1, hypw⟩ := heypw
  have hxe : ∀ a ∈ x, le a e = true := fun a ha =>
    hcross a ha e (List.mem_cons_self e y)
  have hupw : u.Pairwise (fun a b => le a b = true) :=
    List.Pairwise.sublist (List.sublist_append_left u (e :: v)) hsorted
  have hvpw : v.Pairwise (fun a b => le a b = true) :=
    List.Pairwise.sublist ((List.sublist_cons_self e v).trans
      (List.sublist_append_right u (e :: v))) hsorted
  have huM : u.Sublist M :=
    List.sublist_mergeSort htrans htotal hupw
      ((List.sublist_append_left u v).trans (List.sublist_append_left _ [e]))
  have hvM : v.Sublist M :=
    List.sublist_mergeSort htrans htotal hvpw
      ((List.sublist_append_right u v).trans (List.sublist_append_left _ [e]))
  rw [hxy] at huM hvM
  obtain ⟨l1, l2, hu_eq, hl1, hl2⟩ := List.sublist_append_iff.mp huM
  have hl2nil : l2 = [] := by
    cases l2 with
    | nil => rfl
    | cons c cs =>
      exfalso
      have hcu : c ∈ u := by rw [hu_eq]; exact List.mem_append_right _ (List.mem_cons_self c cs)
      have hcey : c ∈ e :: y := hl2.subset (List.mem_cons_self c cs)
      rcases List.mem_cons.mp hcey with rfl | hcy
      · simpa [hee] using hu c hcu
      · have h1 := hu c hcu
        have h2 := hey1 c hcy
        rw [h2] at h1
        simp at h1
  have hux : u.Sublist x := by
    rw [hu_eq, hl2nil, List.append_nil]
    exact hl1
  obtain ⟨m1, m2, hv_eq, hm1, hm2⟩ := List.sublist_append_iff.mp hvM
  have hm1nil : m1 = [] := by
    cases m1 with
    | nil => rfl
    | cons c cs =>
      exfalso
      have hcv : c ∈ v := by rw [hv_eq]; exact List.mem_append_left _ (List.mem_cons_self c cs)
      have hcx : c ∈ x := hm1.subset (List.mem_cons_self c cs)
      have h1 := hv c hcv
      have h2 := hxe c hcx
      rw [h2] at h1
      simp at h1
  have hvey : v.Sublist (e :: y) := by
    rw [hv_eq, hm1nil, List.nil_append]
    exact hm2
  have hvy : v.Sublist y := by
    rcases List.sublist_cons_iff.mp hvey with h | ⟨r, hr, _⟩
    · exact h
    · exact absurd (hr ▸ List.mem_cons_self e r) hev
  have hlenM : M.length = u.length + v.length + 1 := by
    rw [hMperm.length_eq]
    simp
    omega
  have hlenM2 : M.length = x.length + y.length + 1 := by
    rw [hxy]
    simp
    omega
  have hxlen : u.length = x.length := by
    have h1 := hux.length_le
    have h2 := hvy.length_le
    omega
  have hylen : v.length = y.length := by
    have h1 := hux.length_le
    have h2 := hvy.length_le
    omega
  rw [hxy, hux.eq_of_length hxlen, hvy.eq_of_length hylen]

theorem dateKey_mkEntry (date : String) (c y : Summary) :
    dateKey (mkEntry date c y) = date := rfl

theorem dateKey_ne_of_kept {a : HistoryEntry} {date : String}
    (hd : date ≠ "") (ha : a.date ≠ some date) : dateKey a ≠ date := by
  cases h : a.date with
  | none =>
    simp only [dateKey, h, Option.getD_none]
    exact fun heq => hd heq.symm
  | some d =>
    simp only [dateKey, h, Option.getD_some]
    intro heq
    exact ha (by rw [h, heq])

theorem entryLe_strict {a e : HistoryEntry}
    (hk : dateKey a ≠ dateKey e) (hle : entryLe a e = true) :
    entryLe e a = false := by
  cases h : entryLe e a
  · rfl
  · exact absurd (entryLe_antisymm hle h) hk

theorem resort_of_mem (date : String) (entry : HistoryEntry)
    (hdk : entry.date = some date) (hd : date ≠ "")
    (A : List HistoryEntry)
    (hsorted : A.Pairwise (fun a b => entryLe a b = true))
    (hmem : ∀ x ∈ A, x.date = some date → x = entry)
    (hcount : A.count entry = 1) :
    ((A.filter (fun e => decide (e.date ≠ some date))) ++ [entry]).mergeSort
        entryLe = A := by
  have hentryA : entry ∈ A := List.count_pos_iff.mp (by omega)
  obtain ⟨u, v, huv⟩ := List.append_of_mem hentryA
  have henu : entry ∉ u := by
    intro hin
    rw [huv] at hcount
    have h1 : 1 ≤ u.count entry := List.count_pos_iff.mpr hin
    simp [List.count_append] at hcount
    omega
  have henv : entry ∉ v := by
    intro hin
    rw [huv] at hcount
    have h1 : 1 ≤ v.count entry := List.count_pos_iff.mpr hin
    simp [List.count_append] at hcount
    omega
  have hu_dates : ∀ a ∈ u, a.date ≠ some date := by
    intro a ha hadate
    have : a = entry := hmem a (huv ▸ List.mem_append_left _ ha) hadate
    exact henu (this ▸ ha)
  have hv_dates : ∀ b ∈ v, b.date ≠ some date := by
    intro b hb hbdate
    have : b = entry := hmem b
      (huv ▸ List.mem_append_right _ (List.mem_cons_of_mem _ hb)) hbdate
    exact henv (this ▸ hb)
  have hdkentry : dateKey entry = date := by simp [dateKey, hdk]
  have hfilter :
      A.filter (fun e => decide (e.date ≠ some date)) = u ++ v := by
    rw [huv, List.filter_append]
    congr 1
    · exact List.filter_eq_self.mpr (fun a ha => by simpa using hu_dates a ha)
    · rw [List.filter_cons, if_neg (by simp [hdk])]
      exact List.filter_eq_self.mpr (fun b hb => by simpa using hv_dates b hb)
  rw [hfilter, huv]
  have hsorted' := huv ▸ hsorted
  apply mergeSort_reinsert entryLe entryLe_trans entryLe_total u v entry hsorted'
  · intro a ha
    have hle : entryLe a entry = true := by
      rw [List.pairwise_append] at hsorted'
      exact hsorted'.2.2 a ha entry (List.mem_cons_self entry v)
    have hk : dateKey a ≠ dateKey entry :=
      hdkentry ▸ dateKey_ne_of_kept hd (hu_dates a ha)
    exact entryLe_strict hk hle
  · intro b hb
    have hle : entryLe entry b = true := by
      rw [List.pairwise_append] at hsorted'
      exact (List.pairwise_cons.mp hsorted'.2.1).1 b hb
    have hk : dateKey b ≠ dateKey entry :=
      hdkentry ▸ dateKey_ne_of_kept hd (hv_dates b hb)
    cases h : entryLe b entry
    · rfl
    · exact absurd (entryLe_antisymm h hle) hk

theorem resort_of_before (date : String) (entry : HistoryEntry)
    (hdk : entry.date = some date) (hd : date ≠ "")
    (A : List HistoryEntry)
    (hsorted : A.Pairwise (fun a b => entryLe a b = true))
    (hdates : ∀ x ∈ A, x.date ≠ some date)
    (hafter : ∀ b ∈ A, entryLe entry b = true) :
    ((A.filter (fun e => decide (e.date ≠ some date))) ++ [entry]).mergeSort
        entryLe = entry :: A := by
  have hdkentry : dateKey entry = date := by simp [dateKey, hdk]
  have hfilter : A.filter (fun e => decide (e.date ≠ some date)) = A :=
    List.filter_eq_self.mpr (fun a ha => by simpa using hdates a ha)
  rw [hfilter]
  have h := mergeSort_reinsert entryLe entryLe_trans entryLe_total [] A entry
    (by
      rw [List.nil_append, List.pairwise_cons]
      exact ⟨hafter, hsorted⟩)
    (by intro a ha; cases ha)
    (by
      intro b hb
      have hk : dateKey b ≠ dateKey entry :=
        hdkentry ▸ dateKey_ne_of_kept hd (hdates b hb)
      exact entryLe_strict (Ne.symm hk) (hafter b hb))
  simpa using h

/-- C2: history append is idempotent: for every existing series, date, pair
of summaries and retention limit, applying the update of append_history.py
lines 64-70 twice with the same date and summaries yields the same series as
applying it once, and every entry of the result dated with the target date
is the freshly built entry (any pre-existing entry for that date was
replaced). The hypothesis `date ≠ ""` reflects line 54,
`date = args.date or datetime.now(...)`, whose `or` turns an empty
`--date` into the current date, so the dispatched date string is never
empty. -/
theorem history_append_idempotent (h : List HistoryEntry) (date : String)
    (circt yosys : Summary) (max_days : Int) (hd : date ≠ "") :
    append_history (append_history h date circt yosys max_days) date circt
        yosys max_days = append_history h date circt yosys max_days ∧
    ∀ x ∈ append_history h date circt yosys max_days,
      x.date = some date → x = mkEntry date circt yosys := by
  set entry := mkEntry date circt yosys with hentry
  set g := h.filter (fun e => decide (e.date ≠ some date)) with hg
  set s := (g ++ [entry]).mergeSort entryLe with hs
  have hgdates : ∀ a ∈ g, a.date ≠ some date := fun a ha => by
    have := (List.mem_filter.mp ha).2
    simpa using this
  have hentrydate : entry.date = some date := rfl
  have hengg : entry ∉ g := fun hin => hgdates entry hin rfl
  have hscount : s.count entry = 1 := by
    rw [hs, (List.mergeSort_perm _ _).count_eq]
    simp [List.count_append, List.count_eq_zero.mpr hengg]
  have hssorted : s.Pairwise (fun a b => entryLe a b = true) :=
    List.sorted_mergeSort entryLe_trans entryLe_total _
  have hsmem : ∀ x ∈ s, x ∈ g ∨ x = entry := by
    intro x hx
    have hx2 : x ∈ g ++ [entry] :=
      (List.mergeSort_perm (g ++ [entry]) entryLe).mem_iff.mp hx
    rcases List.mem_append.mp hx2 with h1 | h1
    · exact Or.inl h1
    · exact Or.inr (List.mem_singleton.mp h1)
  have hA : append_history h date circt yosys max_days
      = if max_days > 0 then s.drop (s.length - max_days.toNat) else s := rfl
  have hb : ∀ x ∈ append_history h date circt yosys max_days,
      x.date = some date → x = entry := by
    intro x hx hxd
    rw [hA] at hx
    have hxs : x ∈ s := by
      by_cases hm : max_days > 0
      · rw [if_pos hm] at hx
        exact List.mem_of_mem_drop hx
      · rwa [if_neg hm] at hx
    rcases hsmem x hxs with hxg | rfl
    · exact absurd hxd (hgdates x hxg)
    · rfl
  refine ⟨?_, hb⟩
  rw [hA]
  by_cases hm : max_days > 0
  · rw [if_pos hm]
    set k := s.length - max_days.toNat with hk
    set A := s.drop k with hAdef
    have hAsub : A.Sublist s := List.drop_sublist k s
    have hAsorted : A.Pairwise (fun a b => entryLe a b = true) :=
      List.Pairwise.sublist hAsub hssorted
    have hAmem : ∀ x ∈ A, x.date = some date → x = entry := by
      intro x hx hxd
      rcases hsmem x (hAsub.subset hx) with hxg | rfl
      · exact absurd hxd (hgdates x hxg)
      · rfl
    have hlenA : A.length = s.length - k := List.length_drop k s
    have hunfold : append_history A date circt yosys max_days
        = if max_days > 0 then
            (((A.filter (fun e => decide (e.date ≠ some date))) ++ [entry]).mergeSort
              entryLe).drop
              ((((A.filter (fun e => decide (e.date ≠ some date))) ++ [entry]).mergeSort
                entryLe).length - max_days.toNat)
          else ((A.filter (fun e => decide (e.date ≠ some date))) ++ [entry]).mergeSort
            entryLe := rfl
    by_cases he : entry ∈ A
    · have hAcount : A.count entry = 1 := by
        have h1 : A.count entry ≤ s.count entry := hAsub.count_le entry
        have h2 : 1 ≤ A.count entry := List.count_pos_iff.mpr he
        omega
      have hres := resort_of_mem date entry hentrydate hd A hAsorted hAmem hAcount
      rw [hunfold, if_pos hm, hres]
      have : A.length - max_days.toNat = 0 := by omega
      rw [this, List.drop_zero]
    · have hdatesA : ∀ x ∈ A, x.date ≠ some date := by
        intro x hx hxd
        exact he ((hAmem x hx hxd) ▸ hx)
      have hes : entry ∈ s := List.count_pos_iff.mp (by omega)
      have hetake : entry ∈ s.take k := by
        have := (List.take_append_drop k s) ▸ hes
        rcases List.mem_append.mp this with h1 | h1
        · exact h1
        · exact absurd h1 he
      have hafter : ∀ b ∈ A, entryLe entry b = true := by
        intro b hb2
        have hsplit := (List.take_append_drop k s).symm ▸ hssorted
        rw [List.pairwise_append] at hsplit
        exact hsplit.2.2 entry hetake b hb2
      have hres := resort_of_before date entry hentrydate hd A hAsorted hdatesA hafter
      rw [hunfold, if_pos hm, hres]
      have hkpos : 0 < k := by
        by_contra hk0
        exact he (by simpa [hAdef, Nat.le_zero.mp (Nat.not_lt.mp hk0)] using hes)
      have hslen : max_days.toNat < s.length := by omega
      have hAlen : A.length = max_days.toNat := by omega
      have : (entry :: A).length - max_days.toNat = 1 := by
        simp [List.length_cons, hAlen]
      rw [this, List.drop_one, List.tail_cons]
  · rw [if_neg hm]
    have hres := resort_of_mem date entry hentrydate hd s hssorted
      (fun x hx hxd => by
        rcases hsmem x hx with hxg | rfl
        · exact absurd hxd (hgdates x hxg)
        · rfl)
      hscount
    have hunfold : append_history s date circt yosys max_days
        = if max_days > 0 then
            (((s.filter (fun e => decide (e.date ≠ some date))) ++ [entry]).mergeSort
              entryLe).drop
              ((((s.filter (fun e => decide (e.date ≠ some date))) ++ [entry]).mergeSort
                entryLe).length - max_days.toNat)
          else ((s.filter (fun e => decide (e.date ≠ some date))) ++ [entry]).mergeSort
            entryLe := rfl
    rw [hunfold, if_neg hm, hres]

/-- Witness for `history_append_idempotent` at a concrete input. -/
theorem history_append_idempotent_witness :
    ("2024-06-01" : String) ≠ "" ∧
    (append_history
        (append_history [] "2024-06-01" ⟨none, none, []⟩ ⟨none, none, []⟩ 0)
        "2024-06-01" ⟨none, none, []⟩ ⟨none, none, []⟩ 0
      = append_history [] "2024-06-01" ⟨none, none, []⟩ ⟨none, none, []⟩ 0 ∧
    ∀ x ∈ append_history [] "2024-06-01" ⟨none, none, []⟩ ⟨none, none, []⟩ 0,
      x.date = some "2024-06-01" → x = mkEntry "2024-06-01" ⟨none, none, []⟩
        ⟨none, none, []⟩) :=
  ⟨by decide, history_append_idempotent [] "2024-06-01" ⟨none, none, []⟩
    ⟨none, none, []⟩ 0 (by decide)⟩

/-- C3: retention bound: appending with `retention_limit = N > 0` to a series
that would otherwise hold `N + 1` entries (the filtered existing series has
`N` entries, and the new entry makes `N + 1`) leaves exactly the last `N`
entries of the sorted series: the result has length `N`, is sorted ascending
by date string, and the one dropped entry sorts no later than every kept
entry, so the kept entries are the `N` most recent dates. -/
theorem history_retention_bound (h : List HistoryEntry) (date : String)
    (circt yosys : Summary) (N : Nat) (hN : 0 < N)
    (hlen : (h.filter (fun e => decide (e.date ≠ some date))).length = N) :
    append_history h date circt yosys (N : Int)
        = (((h.filter (fun e => decide (e.date ≠ some date)))
            ++ [mkEntry date circt yosys]).mergeSort entryLe).drop 1 ∧
    (append_history h date circt yosys (N : Int)).length = N ∧
    (append_history h date circt yosys (N : Int)).Pairwise
        (fun a b => entryLe a b = true) ∧
    ∀ a ∈ (((h.filter (fun e => decide (e.date ≠ some date)))
        ++ [mkEntry date circt yosys]).mergeSort entryLe).take 1,
      ∀ b ∈ append_history h date circt yosys (N : Int), entryLe a b = true := by
  set entry := mkEntry date circt yosys with hentry
  set g := h.filter (fun e => decide (e.date ≠ some date)) with hg
  set s := (g ++ [entry]).mergeSort entryLe with hs
  have hslen : s.length = N + 1 := by
    rw [hs, (List.mergeSort_perm _ _).length_eq]
    simp [hlen]
  have hssorted : s.Pairwise (fun a b => entryLe a b = true) :=
    List.sorted_mergeSort entryLe_trans entryLe_total _
  have hNpos : (N : Int) > 0 := by exact_mod_cast hN
  have hA : append_history h date circt yosys (N : Int)
      = s.drop (s.length - (N : Int).toNat) := by
    have h0 : append_history h date circt yosys (N : Int)
        = if (N : Int) > 0 then s.drop (s.length - (N : Int).toNat) else s := rfl
    rw [h0, if_pos hNpos]
  have htn : (N : Int).toNat = N := Int.toNat_natCast N
  have hdrop1 : s.length - (N : Int).toNat = 1 := by omega
  have hA1 : append_history h date circt yosys (N : Int) = s.drop 1 := by
    rw [hA, hdrop1]
  refine ⟨hA1, ?_, ?_, ?_⟩
  · rw [hA1, List.length_drop]
    omega
  · rw [hA1]
    exact List.Pairwise.sublist (List.drop_sublist 1 s) hssorted
  · intro a ha b hb
    rw [hA1] at hb
    have hsplit := (List.take_append_drop 1 s).symm ▸ hssorted
    rw [List.pairwise_append] at hsplit
    exact hsplit.2.2 a ha b hb

/-- Witness for `history_retention_bound`: one retained entry, limit 1. -/
theorem history_retention_bound_witness :
    0 < 1 ∧
    ([(⟨some "2024-01-01", "u", "u", [], []⟩ : HistoryEntry)].filter
        (fun e => decide (e.date ≠ some "2024-01-02"))).length = 1 ∧
    (append_history [⟨some "2024-01-01", "u", "u", [], []⟩] "2024-01-02"
        ⟨none, none, []⟩ ⟨none, none, []⟩ ((1 : Nat) : Int)
      = ((([(⟨some "2024-01-01", "u", "u", [], []⟩ : HistoryEntry)].filter
          (fun e => decide (e.date ≠ some "2024-01-02")))
          ++ [mkEntry "2024-01-02" ⟨none, none, []⟩ ⟨none, none, []⟩]).mergeSort
          entryLe).drop 1 ∧
    (append_history [⟨some "2024-01-01", "u", "u", [], []⟩] "2024-01-02"
        ⟨none, none, []⟩ ⟨none, none, []⟩ ((1 : Nat) : Int)).length = 1 ∧
    (append_history [⟨some "2024-01-01", "u", "u", [], []⟩] "2024-01-02"
        ⟨none, none, []⟩ ⟨none, none, []⟩ ((1 : Nat) : Int)).Pairwise
        (fun a b => entryLe a b = true) ∧
    ∀ a ∈ ((([(⟨some "2024-01-01", "u", "u", [], []⟩ : HistoryEntry)].filter
        (fun e => decide (e.date ≠ some "2024-01-02")))
        ++ [mkEntry "2024-01-02" ⟨none, none, []⟩ ⟨none, none, []⟩]).mergeSort
        entryLe).take 1,
      ∀ b ∈ append_history [⟨some "2024-01-01", "u", "u", [], []⟩] "2024-01-02"
          ⟨none, none, []⟩ ⟨none, none, []⟩ ((1 : Nat) : Int),
        entryLe a b = true) :=
  ⟨Nat.one_pos, by decide,
    history_retention_bound [⟨some "2024-01-01", "u", "u", [], []⟩]
      "2024-01-02" ⟨none, none, []⟩ ⟨none, none, []⟩ 1 Nat.one_pos (by decide)⟩

/-- C4 counterexample: the claim says the delta is null exactly when the
baseline is zero, missing, or non-positive. At baseline 100 and compare 0
the baseline is present and positive — the claimed formula would give
`-100.0` — yet line 261 (`bv and cv and bv > 0`) also tests the compare
value for truthiness, so the code yields `None`. -/
theorem ranking_delta_counterexample :
    rankingDelta (some 100) (some 0) = none ∧
    ((0 : ℚ) - 100) / 100 * 100 = -100 ∧
    ¬((100 : ℚ) = 0 ∨ (100 : ℚ) ≤ 0) := by
  refine ⟨?_, by norm_num, by norm_num⟩
  simp [rankingDelta]

/-- C4 amended: the per-metric ranking delta equals
`(compare - baseline) / baseline * 100` rounded half-to-even to two decimal
places, and it is null exactly when the baseline is zero, missing or
non-positive, or the compare value is zero or missing; in particular
baseline=100, compare=80 gives exactly -20.0 and baseline=100, compare=120
gives exactly +20.0. -/
theorem ranking_delta_amended (bv cv : Option ℚ) :
    (rankingDelta bv cv = none ↔
      ¬ ∃ b c, bv = some b ∧ cv = some c ∧ 0 < b ∧ c ≠ 0) ∧
    (∀ b c, bv = some b → cv = some c → 0 < b → c ≠ 0 →
      rankingDelta bv cv = some (round2 ((c - b) / b * 100))) ∧
    rankingDelta (some 100) (some 80) = some (-20) ∧
    rankingDelta (some 100) (some 120) = some 20 := by
  refine ⟨?_, ?_, ?_, ?_⟩
  · match bv, cv with
    | none, none => simp [rankingDelta]
    | none, some c => simp [rankingDelta]
    | some b, none => simp [rankingDelta]
    | some b, some c =>
      by_cases hb : 0 < b
      · by_cases hc : c ≠ 0
        · simp [rankingDelta, hb, hc, ne_of_gt hb]
        · simp only [ne_eq, Decidable.not_not] at hc
          simp [rankingDelta, hc]
      · constructor
        · intro _
          rintro ⟨b2, c2, hb2, hc2, hpos, hne⟩
          cases hb2
          exact hb hpos
        · intro _
          simp [rankingDelta, hb]
  · intro b c hb hc hbpos hcne
    subst hb
    subst hc
    simp [rankingDelta, hbpos, hcne, ne_of_gt hbpos]
  · have h2 : round2 (((80 : ℚ) - 100) / 100 * 100) = -20 := by
      norm_num [round2, roundHalfEven]
    simp only [rankingDelta]
    rw [if_pos (by norm_num)]
    rw [h2]
  · have h2 : round2 (((120 : ℚ) - 100) / 100 * 100) = 20 := by
      norm_num [round2, roundHalfEven]
    simp only [rankingDelta]
    rw [if_pos (by norm_num)]
    rw [h2]

/-- Witness for `ranking_delta_amended` at baseline 100, compare 80. -/
theorem ranking_delta_amended_witness :
    (some (100 : ℚ) = some (100 : ℚ)) ∧ (some (80 : ℚ) = some (80 : ℚ)) ∧
    (0 : ℚ) < 100 ∧ (80 : ℚ) ≠ 0 ∧
    rankingDelta (some 100) (some 80)
      = some (round2 ((80 - 100) / 100 * 100)) :=
  ⟨rfl, rfl, by norm_num, by norm_num,
    (ranking_delta_amended (some 100) (some 80)).2.1 100 80 rfl rfl
      (by norm_num) (by norm_num)⟩

/-- C5: `geo_mean` equals the exponential of the mean natural logarithm of
the strictly positive values, values that are not strictly positive are
excluded before the mean, and with no positive values the result is the
sentinel `0`; concretely `geo_mean [4, 9] = 6`, `geo_mean [0, 5] = 5` (the
zero is excluded) and `geo_mean [] = 0`. -/
theorem geo_mean_spec :
    geo_mean [4, 9] = 6 ∧
    geo_mean [0, 5] = 5 ∧
    geo_mean [] = 0 ∧
    (∀ V : List ℚ, validValues V = [] → geo_mean V = 0) ∧
    (∀ V : List ℚ, validValues V ≠ [] →
      geo_mean V = Real.exp
        (((validValues V).map (fun v => Real.log (v : ℝ))).sum
          / (validValues V).length)) ∧
    (∀ V : List ℚ, ∀ v ∈ validValues V, 0 < v) ∧
    (∀ V : List ℚ, ∀ v ∈ V, 0 < v → v ∈ validValues V) := by
  have hvalid : ∀ V : List ℚ, ∀ v ∈ validValues V, 0 < v := by
    intro V v hv
    have hmem := List.mem_filter.mp hv
    have h2 := hmem.2
    simp only [Bool.and_eq_true, decide_eq_true_eq] at h2
    exact h2.2
  have hunfold : ∀ V : List ℚ, validValues V ≠ [] →
      geo_mean V = Real.exp
        (((validValues V).map (fun v => Real.log (v : ℝ))).sum
          / (validValues V).length) := by
    intro V hV
    simp only [geo_mean, if_neg hV]
  refine ⟨?_, ?_, rfl, ?_, hunfold, hvalid, ?_⟩
  · have h49 : validValues [4, 9] = [4, 9] := by decide
    have h1 : geo_mean [4, 9]
        = Real.exp ((Real.log 4 + Real.log 9) / 2) := by
      rw [hunfold [4, 9] (by rw [h49]; simp), h49]
      norm_num
    have hlog : Real.log 4 + Real.log 9 = 2 * Real.log 6 := by
      rw [← Real.log_mul (by norm_num) (by norm_num)]
      have h36 : (4 : ℝ) * 9 = 6 ^ 2 := by norm_num
      rw [h36, Real.log_pow]
      norm_num
    rw [h1, hlog]
    have h3 : (2 : ℝ) * Real.log 6 / 2 = Real.log 6 := by ring
    rw [h3, Real.exp_log (by norm_num)]
  · have h05 : validValues [0, 5] = [5] := by decide
    have h1 : geo_mean [0, 5] = Real.exp (Real.log 5 / 1) := by
      rw [hunfold [0, 5] (by rw [h05]; simp), h05]
      norm_num
    rw [h1]
    norm_num
    rw [Real.exp_log (by norm_num)]
  · intro V hV
    simp only [geo_mean, if_pos hV]
  · intro V v hv hvpos
    refine List.mem_filter.mpr ⟨hv, ?_⟩
    simp only [Bool.and_eq_true, decide_eq_true_eq]
    exact ⟨ne_of_gt hvpos, hvpos⟩

/-- Witness for `geo_mean_spec`: the empty-filter case at `V = [-3]` and the
membership cases at `V = [0, 5]`. -/
theorem geo_mean_spec_witness :
    validValues [(-3 : ℚ)] = [] ∧ geo_mean [(-3 : ℚ)] = 0 ∧
    validValues [0, 5] ≠ [] ∧
    geo_mean [0, 5] = Real.exp
      (((validValues [0, 5]).map (fun v => Real.log (v : ℝ))).sum
        / (validValues [0, 5]).length) ∧
    (5 : ℚ) ∈ ([0, 5] : List ℚ) ∧ (0 : ℚ) < 5 ∧ (5 : ℚ) ∈ validValues [0, 5] :=
  ⟨by decide, geo_mean_spec.2.2.2.1 [(-3 : ℚ)] (by decide), by decide,
    geo_mean_spec.2.2.2.2.1 [0, 5] (by decide),
    by simp, by norm_num,
    geo_mean_spec.2.2.2.2.2.2 [0, 5] 5 (by simp) (by norm_num)⟩

/-- C8 counterexample: the first summary carries the benchmark but its data
has no `category` key, while the second summary records category "Arith"
for it; the claim says the benchmark gets the first non-empty category
found across tools and that the assignment never fails, but
`benchmark_data["category"]` raises `KeyError` (modelled as `none`) on the
first summary without consulting the second; moreover an empty category on
the first carrier is returned as-is instead of falling through. -/
theorem get_category_counterexample :
    get_category "b"
      [("t1", ⟨none, none, [("b", ⟨none, none, []⟩)]⟩),
       ("t2", ⟨none, none, [("b", ⟨none, some "Arith", []⟩)]⟩)] = none ∧
    get_category "b"
      [("t1", ⟨none, none, [("b", ⟨none, some "", []⟩)]⟩),
       ("t2", ⟨none, none, [("b", ⟨none, some "Arith", []⟩)]⟩)] = some "" := by
  constructor <;> rfl

/-- C8 amended: every benchmark is assigned the category value recorded by
the first tool summary (in iteration order) that carries the benchmark,
whether or not that value is empty; when that summary's data lacks a
`category` key the lookup raises `KeyError` (modelled as `none`) instead of
falling through to later tools; `"Other"` is assigned only when no summary
carries the benchmark at all. -/
theorem get_category_amended (name : String)
    (summaries : List (String × Summary)) :
    ((∀ ts ∈ summaries, ts.2.benchmarks.lookup name = none) →
      get_category name summaries = some "Other") ∧
    (∀ pre t s post bd, summaries = pre ++ (t, s) :: post →
      (∀ ts ∈ pre, ts.2.benchmarks.lookup name = none) →
      s.benchmarks.lookup name = some bd →
      get_category name summaries = bd.category) := by
  constructor
  · intro hnone
    have hfind : summaries.find?
        (fun ts => (ts.2.benchmarks.lookup name).isSome) = none := by
      rw [List.find?_eq_none]
      intro ts hts
      simp [hnone ts hts]
    simp [get_category, hfind]
  · intro pre t s post bd hsum hpre hlook
    have hfind : summaries.find?
        (fun ts => (ts.2.benchmarks.lookup name).isSome) = some (t, s) := by
      rw [hsum, List.find?_append]
      have h1 : pre.find? (fun ts => (ts.2.benchmarks.lookup name).isSome)
          = none := by
        rw [List.find?_eq_none]
        intro ts hts
        simp [hpre ts hts]
      have h2 : ((t, s) :: post).find?
          (fun ts => (ts.2.benchmarks.lookup name).isSome) = some (t, s) := by
        rw [List.find?_cons_of_pos]
        simp [hlook]
      rw [h1, h2]
      rfl
    simp [get_category, hfind, hlook]

/-- Witness for `get_category_amended`: a benchmark missing from every
summary gets "Other", and one carried by the first summary gets that
summary's category value. -/
theorem get_category_amended_witness :
    ((∀ ts ∈ ([("t1", ⟨none, none, []⟩)] : List (String × Summary)),
        ts.2.benchmarks.lookup "b" = none) ∧
      get_category "b" [("t1", ⟨none, none, []⟩)] = some "Other") ∧
    (([("t1", (⟨none, none, [("b", ⟨none, some "Arith", []⟩)]⟩ : Summary))]
          : List (String × Summary))
        = [] ++ ("t1", ⟨none, none, [("b", ⟨none, some "Arith", []⟩)]⟩) :: [] ∧
      (⟨none, none, [("b", ⟨none, some "Arith", []⟩)]⟩ :
          Summary).benchmarks.lookup "b" = some ⟨none, some "Arith", []⟩ ∧
      get_category "b"
          [("t1", ⟨none, none, [("b", ⟨none, some "Arith", []⟩)]⟩)]
        = some "Arith") :=
  ⟨⟨fun ts hts => by
      rcases List.mem_singleton.mp hts with rfl
      rfl,
    (get_category_amended "b" [("t1", ⟨none, none, []⟩)]).1
      (fun ts hts => by
        rcases List.mem_singleton.mp hts with rfl
        rfl)⟩,
   rfl, rfl,
   (get_category_amended "b"
      [("t1", ⟨none, none, [("b", ⟨none, some "Arith", []⟩)]⟩)]).2
      [] "t1" ⟨none, none, [("b", ⟨none, some "Arith", []⟩)]⟩ []
      ⟨none, some "Arith", []⟩ rfl (fun ts hts => absurd hts (by simp)) rfl⟩

/-- A benchmark carried by the first of two summaries takes its category
from that summary alone, whatever the second summary holds. -/
theorem get_category_first_carrier (n ta tb : String) (sa sbX : Summary)
    (bd : BenchData) (hl : sa.benchmarks.lookup n = some bd) :
    get_category n [(ta, sa), (tb, sbX)] = bd.category := by
  have hfind : ([(ta, sa), (tb, sbX)]).find?
      (fun ts => (ts.2.benchmarks.lookup n).isSome) = some (ta, sa) := by
    rw [List.find?_cons_of_pos]
    simp [hl]
  simp [get_category, hfind, hl]

/-- C9: in the two-tool geometric-mean table, the overall value list of each
tool ranges over all benchmarks that tool reports — its length is the
tool's own benchmark count and it does not depend on the other tool's
summary — and each (category, tool) value list ranges over the category's
benchmarks reported by that tool alone, also independent of the other
summary; the benchmark sets are never intersected. -/
theorem geo_table_uses_tool_local_benchmarks
    (ta tb key cat : String) (sa sb sa2 sb2 : Summary) (allB : List String)
    (hab : ta ≠ tb) :
    overallBaselineValues [(ta, sa), (tb, sb)] key
        = sa.benchmarks.map (fun nb => metricValue nb.2 key) ∧
    (overallBaselineValues [(ta, sa), (tb, sb)] key).length
        = sa.benchmarks.length ∧
    overallBaselineValues [(ta, sa), (tb, sb)] key
        = overallBaselineValues [(ta, sa), (tb, sb2)] key ∧
    overallCompareValues [(ta, sa), (tb, sb)] key
        = sb.benchmarks.map (fun nb => metricValue nb.2 key) ∧
    (overallCompareValues [(ta, sa), (tb, sb)] key).length
        = sb.benchmarks.length ∧
    overallCompareValues [(ta, sa), (tb, sb)] key
        = overallCompareValues [(ta, sa2), (tb, sb)] key ∧
    categoryValues (benchmarksOfCategory allB [(ta, sa), (tb, sb)] cat) sa key
        = categoryValues (benchmarksOfCategory allB [(ta, sa), (tb, sb2)] cat)
            sa key ∧
    geo_mean (overallBaselineValues [(ta, sa), (tb, sb)] key)
        = geo_mean (sa.benchmarks.map (fun nb => metricValue nb.2 key)) := by
  have hb1 : ∀ sbX : Summary, overallBaselineValues [(ta, sa), (tb, sbX)] key
      = sa.benchmarks.map (fun nb => metricValue nb.2 key) := by
    intro sbX
    simp [overallBaselineValues, lookupSummary, List.lookup]
  have hc1 : ∀ saX : Summary, overallCompareValues [(ta, saX), (tb, sb)] key
      = sb.benchmarks.map (fun nb => metricValue nb.2 key) := by
    intro saX
    have hne : (tb == ta) = false := by
      simp only [beq_eq_false_iff_ne, ne_eq]
      exact Ne.symm hab
    simp [overallCompareValues, lookupSummary, List.lookup, hne]
  have hcat : ∀ l : List String,
      categoryValues (benchmarksOfCategory l [(ta, sa), (tb, sb)] cat) sa key
        = categoryValues (benchmarksOfCategory l [(ta, sa), (tb, sb2)] cat)
            sa key := by
    intro l
    induction l with
    | nil => rfl
    | cons n ns ih =>
      simp only [benchmarksOfCategory] at ih ⊢
      rw [List.filter_cons, List.filter_cons]
      cases hlook : sa.benchmarks.lookup n with
      | some bd =>
        have h1 := get_category_first_carrier n ta tb sa sb bd hlook
        have h2 := get_category_first_carrier n ta tb sa sb2 bd hlook
        rw [h1, h2]
        by_cases hc : bd.category = some cat
        · rw [if_pos (by simp [hc]), if_pos (by simp [hc])]
          have hcons : ∀ L : List String,
              categoryValues (n :: L) sa key
                = metricValue bd key :: categoryValues L sa key := by
            intro L
            simp [categoryValues, List.filterMap_cons, hlook]
          rw [hcons, hcons, ih]
        · rw [if_neg (by simp [hc]), if_neg (by simp [hc])]
          exact ih
      | none =>
        have hred : ∀ L : List String,
            categoryValues (n :: L) sa key = categoryValues L sa key := by
          intro L
          simp [categoryValues, List.filterMap_cons, hlook]
        by_cases c1 : get_category n [(ta, sa), (tb, sb)] = some cat <;>
          by_cases c2 : get_category n [(ta, sa), (tb, sb2)] = some cat <;>
          simp [c1, c2, hred, ih]
  exact ⟨hb1 sb, by rw [hb1 sb]; simp, by rw [hb1 sb, hb1 sb2],
    hc1 sa, by rw [hc1 sa]; simp, by rw [hc1 sa, hc1 sa2],
    hcat allB, by rw [hb1 sb]⟩

/-- Witness for `geo_table_uses_tool_local_benchmarks` at two concrete
distinct tool names. -/
theorem geo_table_uses_tool_local_benchmarks_witness :
    ("a" : String) ≠ "b" ∧
    overallBaselineValues
        [("a", (⟨none, none, [("m", ⟨none, none, [("gates", 5)]⟩)]⟩ : Summary)),
         ("b", ⟨none, none, []⟩)] "gates"
      = (⟨none, none, [("m", ⟨none, none, [("gates", 5)]⟩)]⟩ :
          Summary).benchmarks.map (fun nb => metricValue nb.2 "gates") :=
  ⟨by decide,
    (geo_table_uses_tool_local_benchmarks "a" "b" "gates" "c"
      ⟨none, none, [("m", ⟨none, none, [("gates", 5)]⟩)]⟩ ⟨none, none, []⟩
      ⟨none, none, []⟩ ⟨none, none, []⟩ [] (by decide)).1⟩

/-- C7 counterexample: with a single loaded tool (two summary files with the
same "tool" name collapse in the summaries dict), `run_cec` prints the
diagnostic and returns the empty map (lines 29-32), and `main` (lines
159-169) still writes the empty result and returns 0 — the process exit
status is zero, not non-zero as claimed. -/
theorem cec_config_error_counterexample :
    run_cec_config_error [("t", ⟨none, none, []⟩)]
      = some "Error: Need at least 2 tools for equivalence check" ∧
    run_cec [("t", ⟨none, none, []⟩)] (fun _ => true) "abc"
      (fun _ _ _ => .timeoutExpired) = [] ∧
    check_cec_main_exit [("t", ⟨none, none, []⟩)] (fun _ => true) "abc"
      (fun _ _ _ => .timeoutExpired) = 0 :=
  ⟨rfl, rfl, rfl⟩

/-- C7 amended: with fewer than two tools the equivalence check prints its
diagnostic to the error stream and returns an empty verdict map, but the
operation is not fatal: `main` writes the empty result and the process
exits with status zero. -/
theorem cec_config_error_amended (summaries : List (String × Summary))
    (fs : String → Bool) (abc : String)
    (oracle : String → String → String → SubprocOutcome)
    (hlt : summaries.length < 2) :
    run_cec_config_error summaries
      = some "Error: Need at least 2 tools for equivalence check" ∧
    run_cec summaries fs abc oracle = [] ∧
    check_cec_main_exit summaries fs abc oracle = 0 := by
  have hlen : (summaries.map Prod.fst).length < 2 := by
    rw [List.length_map]
    exact hlt
  refine ⟨by simp [run_cec_config_error, hlen, hlt], ?_, rfl⟩
  rcases summaries with _ | ⟨p, _ | ⟨q, t⟩⟩
  · rfl
  · rfl
  · exfalso
    simp at hlt
    omega

/-- Witness for `cec_config_error_amended` at one loaded tool. -/
theorem cec_config_error_amended_witness :
    ([("t", (⟨none, none, []⟩ : Summary))].length < 2) ∧
    (run_cec_config_error [("t", ⟨none, none, []⟩)]
        = some "Error: Need at least 2 tools for equivalence check" ∧
      run_cec [("t", ⟨none, none, []⟩)] (fun _ => false) "abc"
        (fun _ _ _ => .raised "boom") = [] ∧
      check_cec_main_exit [("t", ⟨none, none, []⟩)] (fun _ => false) "abc"
        (fun _ _ _ => .raised "boom") = 0) :=
  ⟨by decide,
    cec_config_error_amended [("t", ⟨none, none, []⟩)] (fun _ => false) "abc"
      (fun _ _ _ => .raised "boom") (by decide)⟩

theorem lookup_eq_none_of_not_mem_keys {β : Type}
    {l : List (String × β)} {n : String} (h : n ∉ l.map Prod.fst) :
    l.lookup n = none := by
  induction l with
  | nil => rfl
  | cons p t ih =>
    obtain ⟨k, v⟩ := p
    simp only [List.map_cons, List.mem_cons] at h
    push_neg at h
    have hbeq : (n == k) = false := by
      simp only [beq_eq_false_iff_ne, ne_eq]
      exact h.1
    simp [List.lookup, hbeq, ih h.2]

theorem lookup_eq_some_of_mem_of_nodup {β : Type}
    {l : List (String × β)} {n : String} {v : β}
    (hnd : (l.map Prod.fst).Nodup) (hm : (n, v) ∈ l) :
    l.lookup n = some v := by
  induction l with
  | nil => cases hm
  | cons p t ih =>
    obtain ⟨k, w⟩ := p
    simp only [List.map_cons, List.nodup_cons] at hnd
    rcases List.mem_cons.mp hm with heq | hmem
    · rw [show n = k from congrArg Prod.fst heq,
        show v = w from congrArg Prod.snd heq]
      simp [List.lookup]
    · have hkeys : n ∈ t.map Prod.fst := List.mem_map.mpr ⟨(n, v), hmem, rfl⟩
      have hne : (n == k) = false := by
        simp only [beq_eq_false_iff_ne, ne_eq]
        intro heq2
        exact hnd.1 (heq2 ▸ hkeys)
      simp [List.lookup, hne, ih hnd.2 hmem]

theorem run_one_cec_benchmark (abc n a1 a2 : String) (o : SubprocOutcome) :
    (_run_one_cec abc n a1 a2 o).benchmark = n := by
  cases o with
  | completed ec s1 s2 =>
    simp only [_run_one_cec]
    split
    · rfl
    · split
      · rfl
      · rfl
  | timeoutExpired => rfl
  | raised m => rfl

theorem run_one_cec_status_not_missing (abc n a1 a2 : String)
    (o : SubprocOutcome) :
    (_run_one_cec abc n a1 a2 o).status = .equivalent ∨
    (_run_one_cec abc n a1 a2 o).status = .not_equivalent ∨
    (_run_one_cec abc n a1 a2 o).status = .timeout ∨
    (_run_one_cec abc n a1 a2 o).status = .error := by
  cases o with
  | completed ec s1 s2 =>
    simp only [_run_one_cec]
    split
    · exact Or.inl rfl
    · split
      · exact Or.inr (Or.inl rfl)
      · exact Or.inr (Or.inr (Or.inr rfl))
  | timeoutExpired => exact Or.inr (Or.inr (Or.inl rfl))
  | raised m => exact Or.inr (Or.inr (Or.inr rfl))

theorem dispatch_filterMap_names (s0 s1 : Summary) (fs : String → Bool)
    (l : List String) :
    (l.filterMap (fun n => match dispatchOf s0 s1 fs n with
      | .check a1 a2 => some (n, a1, a2)
      | .missing => none)).map Prod.fst
      = l.filter (fun n => !decide (dispatchOf s0 s1 fs n = .missing)) := by
  induction l with
  | nil => rfl
  | cons m ms ih =>
    rw [List.filterMap_cons, List.filter_cons]
    cases hd : dispatchOf s0 s1 fs m with
    | missing => simp [hd, ih]
    | check a1 a2 => simp [hd, ih]

theorem mem_dispatch_filterMap {s0 s1 : Summary} {fs : String → Bool}
    {l : List String} {x : String × String × String} :
    x ∈ l.filterMap (fun n => match dispatchOf s0 s1 fs n with
      | .check a1 a2 => some (n, a1, a2)
      | .missing => none)
      ↔ x.1 ∈ l ∧ dispatchOf s0 s1 fs x.1 = .check x.2.1 x.2.2 := by
  rw [List.mem_filterMap]
  constructor
  · rintro ⟨m, hm, hx⟩
    cases hd : dispatchOf s0 s1 fs m with
    | missing => rw [hd] at hx; cases hx
    | check a1 a2 =>
      rw [hd] at hx
      have hx2 : (m, a1, a2) = x := Option.some_injective _ hx
      rw [← hx2]
      exact ⟨hm, hd⟩
  · rintro ⟨hm, hd⟩
    refine ⟨x.1, hm, ?_⟩
    rw [hd]

theorem mem_sortedNames {l : List String} {n : String} :
    n ∈ sortedNames l ↔ n ∈ l := by
  rw [sortedNames, List.mem_dedup]
  exact (List.perm_insertionSort _ l).mem_iff

theorem sortedNames_nodup (l : List String) : (sortedNames l).Nodup :=
  List.nodup_dedup _

theorem sortedNames_perm_dedup (l : List String) :
    (sortedNames l).Perm l.dedup :=
  (List.perm_insertionSort (fun a b => strLe a b = true) l).dedup

theorem cec_partition (l : List CecResult) :
    (l.filter (fun r => decide (r.status = .equivalent))
      ++ (l.filter (fun r => decide (r.status = .not_equivalent))
      ++ (l.filter (fun r => decide (r.status ≠ .equivalent ∧
            r.status ≠ .not_equivalent ∧ r.status ≠ .timeout))
      ++ l.filter (fun r => decide (r.status = .timeout))))).Perm l := by
  have hP2 : (l.filter
        (fun r => !decide (r.status = Verdict.equivalent))).filter
        (fun r => decide (r.status = Verdict.not_equivalent))
      = l.filter (fun r => decide (r.status = Verdict.not_equivalent)) := by
    rw [List.filter_filter]
    congr 1
    funext r
    cases hst : r.status <;> simp [hst]
  have hP4 : ((l.filter
        (fun r => !decide (r.status = Verdict.equivalent))).filter
        (fun r => !decide (r.status = Verdict.not_equivalent))).filter
        (fun r => decide (r.status = Verdict.timeout))
      = l.filter (fun r => decide (r.status = Verdict.timeout)) := by
    rw [List.filter_filter, List.filter_filter]
    congr 1
    funext r
    cases hst : r.status <;> simp [hst]
  have hP3 : ((l.filter
        (fun r => !decide (r.status = Verdict.equivalent))).filter
        (fun r => !decide (r.status = Verdict.not_equivalent))).filter
        (fun r => !decide (r.status = Verdict.timeout))
      = l.filter (fun r => decide (r.status ≠ Verdict.equivalent ∧
          r.status ≠ Verdict.not_equivalent ∧ r.status ≠ Verdict.timeout)) := by
    rw [List.filter_filter, List.filter_filter]
    congr 1
    funext r
    cases hst : r.status <;> simp [hst]
  have s1 := List.filter_append_perm
    (fun r => decide (r.status = Verdict.equivalent)) l
  have s2 := List.filter_append_perm
    (fun r => decide (r.status = Verdict.not_equivalent))
    (l.filter (fun r => !decide (r.status = Verdict.equivalent)))
  have s3 := List.filter_append_perm
    (fun r => decide (r.status = Verdict.timeout))
    ((l.filter (fun r => !decide (r.status = Verdict.equivalent))).filter
      (fun r => !decide (r.status = Verdict.not_equivalent)))
  rw [hP2] at s2
  rw [hP4, hP3] at s3
  have s3' : (l.filter (fun r => decide (r.status ≠ Verdict.equivalent ∧
          r.status ≠ Verdict.not_equivalent ∧ r.status ≠ Verdict.timeout))
        ++ l.filter (fun r => decide (r.status = Verdict.timeout))).Perm
      ((l.filter (fun r => !decide (r.status = Verdict.equivalent))).filter
        (fun r => !decide (r.status = Verdict.not_equivalent))) :=
    (List.perm_append_comm).trans s3
  have s2' : (l.filter (fun r => decide (r.status = Verdict.not_equivalent))
        ++ (l.filter (fun r => decide (r.status ≠ Verdict.equivalent ∧
            r.status ≠ Verdict.not_equivalent ∧ r.status ≠ Verdict.timeout))
        ++ l.filter (fun r => decide (r.status = Verdict.timeout)))).Perm
      (l.filter (fun r => !decide (r.status = Verdict.equivalent))) :=
    ((List.Perm.append_left _ s3').trans s2)
  exact (List.Perm.append_left _ s2').trans s1

theorem mem_checked_names (s0 s1 : Summary) (allB : List String)
    (fs : String → Bool) (abc : String)
    (oracle : String → String → String → SubprocOutcome)
    (p : CecResult → Bool) (n : String) :
    n ∈ ((((allB.filterMap (fun m => match dispatchOf s0 s1 fs m with
        | .check a1 a2 => some (m, a1, a2)
        | .missing => none)).map
          (fun x => _run_one_cec abc x.1 x.2.1 x.2.2
            (oracle x.1 x.2.1 x.2.2))).filter p).map CecResult.benchmark)
      ↔ n ∈ allB ∧ ∃ a1 a2, dispatchOf s0 s1 fs n = .check a1 a2 ∧
          p (_run_one_cec abc n a1 a2 (oracle n a1 a2)) = true := by
  simp only [List.mem_map, List.mem_filter]
  constructor
  · rintro ⟨r, ⟨⟨⟨m, a1, a2⟩, hx, rfl⟩, hp⟩, hbn⟩
    obtain ⟨hm, hdisp⟩ := mem_dispatch_filterMap.mp hx
    have hbn2 : m = n := by
      rw [← hbn, run_one_cec_benchmark]
    subst hbn2
    exact ⟨hm, a1, a2, hdisp, hp⟩
  · rintro ⟨hn, a1, a2, hdisp, hp⟩
    exact ⟨_run_one_cec abc n a1 a2 (oracle n a1 a2),
      ⟨⟨(n, a1, a2), mem_dispatch_filterMap.mpr ⟨hn, hdisp⟩, rfl⟩, hp⟩,
      run_one_cec_benchmark abc n a1 a2 (oracle n a1 a2)⟩

theorem status_map_pair_mem (s0 s1 : Summary) (allB : List String)
    (fs : String → Bool) (abc : String)
    (oracle : String → String → String → SubprocOutcome)
    (n : String) (v : Verdict) :
    (n, v) ∈ status_map s0 s1 allB fs abc oracle
      ↔ n ∈ allB ∧ v = verdictOf s0 s1 fs abc oracle n := by
  simp only [status_map]
  constructor
  · intro hmem
    rcases List.mem_append.mp hmem with h | h5
    rcases List.mem_append.mp h with h | h4
    rcases List.mem_append.mp h with h | h3
    rcases List.mem_append.mp h with h1 | h2
    · rcases List.mem_map.mp h1 with ⟨m, hmN, heq⟩
      cases heq
      obtain ⟨hn, a1, a2, hdisp, hp⟩ := (mem_checked_names s0 s1 allB fs abc
        oracle _ n).mp hmN
      refine ⟨hn, ?_⟩
      simp only [decide_eq_true_eq] at hp
      simp [verdictOf, hdisp, hp]
    · rcases List.mem_map.mp h2 with ⟨m, hmN, heq⟩
      cases heq
      obtain ⟨hn, a1, a2, hdisp, hp⟩ := (mem_checked_names s0 s1 allB fs abc
        oracle _ n).mp hmN
      refine ⟨hn, ?_⟩
      simp only [decide_eq_true_eq] at hp
      simp [verdictOf, hdisp, hp]
    · rcases List.mem_map.mp h3 with ⟨m, hmN, heq⟩
      cases heq
      obtain ⟨hn, hd⟩ := List.mem_filter.mp hmN
      simp only [decide_eq_true_eq] at hd
      exact ⟨hn, by simp [verdictOf, hd]⟩
    · rcases List.mem_map.mp h4 with ⟨m, hmN, heq⟩
      cases heq
      obtain ⟨hn, a1, a2, hdisp, hp⟩ := (mem_checked_names s0 s1 allB fs abc
        oracle _ n).mp hmN
      refine ⟨hn, ?_⟩
      simp only [decide_eq_true_eq] at hp
      obtain ⟨hp1, hp2, hp3⟩ := hp
      rcases run_one_cec_status_not_missing abc n a1 a2 (oracle n a1 a2)
        with hs | hs | hs | hs
      · exact absurd hs hp1
      · exact absurd hs hp2
      · exact absurd hs hp3
      · simp [verdictOf, hdisp, hs]
    · rcases List.mem_map.mp h5 with ⟨m, hmN, heq⟩
      cases heq
      obtain ⟨hn, a1, a2, hdisp, hp⟩ := (mem_checked_names s0 s1 allB fs abc
        oracle _ n).mp hmN
      refine ⟨hn, ?_⟩
      simp only [decide_eq_true_eq] at hp
      simp [verdictOf, hdisp, hp]
  · rintro ⟨hn, rfl⟩
    cases hdisp : dispatchOf s0 s1 fs n with
    | missing =>
      have hv : verdictOf s0 s1 fs abc oracle n = .missing := by
        simp [verdictOf, hdisp]
      rw [hv]
      refine List.mem_append.mpr (Or.inl (List.mem_append.mpr (Or.inl
        (List.mem_append.mpr (Or.inr ?_)))))
      exact List.mem_map.mpr ⟨n, List.mem_filter.mpr ⟨hn, by simp [hdisp]⟩, rfl⟩
    | check a1 a2 =>
      have hv : verdictOf s0 s1 fs abc oracle n
          = (_run_one_cec abc n a1 a2 (oracle n a1 a2)).status := by
        simp [verdictOf, hdisp]
      rw [hv]
      rcases run_one_cec_status_not_missing abc n a1 a2 (oracle n a1 a2)
        with hs | hs | hs | hs
      · rw [hs]
        refine List.mem_append.mpr (Or.inl (List.mem_append.mpr (Or.inl
          (List.mem_append.mpr (Or.inl (List.mem_append.mpr (Or.inl ?_)))))))
        exact List.mem_map.mpr ⟨n, (mem_checked_names s0 s1 allB fs abc
          oracle _ n).mpr ⟨hn, a1, a2, hdisp, by simp [hs]⟩, rfl⟩
      · rw [hs]
        refine List.mem_append.mpr (Or.inl (List.mem_append.mpr (Or.inl
          (List.mem_append.mpr (Or.inl (List.mem_append.mpr (Or.inr ?_)))))))
        exact List.mem_map.mpr ⟨n, (mem_checked_names s0 s1 allB fs abc
          oracle _ n).mpr ⟨hn, a1, a2, hdisp, by simp [hs]⟩, rfl⟩
      · rw [hs]
        refine List.mem_append.mpr (Or.inr ?_)
        exact List.mem_map.mpr ⟨n, (mem_checked_names s0 s1 allB fs abc
          oracle _ n).mpr ⟨hn, a1, a2, hdisp, by simp [hs]⟩, rfl⟩
      · rw [hs]
        refine List.mem_append.mpr (Or.inl (List.mem_append.mpr (Or.inr ?_)))
        exact List.mem_map.mpr ⟨n, (mem_checked_names s0 s1 allB fs abc
          oracle _ n).mpr ⟨hn, a1, a2, hdisp, by simp [hs]⟩, rfl⟩

theorem status_map_keys_perm (s0 s1 : Summary) (allB : List String)
    (fs : String → Bool) (abc : String)
    (oracle : String → String → String → SubprocOutcome) :
    ((status_map s0 s1 allB fs abc oracle).map Prod.fst).Perm allB := by
  have hcomp : ∀ w : Verdict,
      (Prod.fst ∘ (fun n : String => (n, w)) ∘ CecResult.benchmark)
        = CecResult.benchmark := by
    intro w
    funext r
    rfl
  have hbench : (CecResult.benchmark ∘ fun x : String × String × String =>
        _run_one_cec abc x.1 x.2.1 x.2.2 (oracle x.1 x.2.1 x.2.2))
      = Prod.fst := by
    funext x
    exact run_one_cec_benchmark abc x.1 x.2.1 x.2.2 (oracle x.1 x.2.1 x.2.2)
  simp only [status_map, List.map_append, List.map_map]
  rw [hcomp, hcomp, hcomp, hcomp]
  have hfstid : (Prod.fst ∘ fun n : String => (n, Verdict.missing)) = id := by
    funext a
    rfl
  rw [hfstid, List.map_id]
  set cec := ((allB.filterMap (fun m => match dispatchOf s0 s1 fs m with
      | .check a1 a2 => some (m, a1, a2)
      | .missing => none)).map
      (fun x => _run_one_cec abc x.1 x.2.1 x.2.2
        (oracle x.1 x.2.1 x.2.2))) with hcec
  set e1 := (cec.filter
    (fun r => decide (r.status = Verdict.equivalent))).map
    CecResult.benchmark with he1
  set e2 := (cec.filter
    (fun r => decide (r.status = Verdict.not_equivalent))).map
    CecResult.benchmark with he2
  set e3 := (cec.filter
    (fun r => decide (r.status ≠ Verdict.equivalent ∧
      r.status ≠ Verdict.not_equivalent ∧ r.status ≠ Verdict.timeout))).map
    CecResult.benchmark with he3
  set e4 := (cec.filter
    (fun r => decide (r.status = Verdict.timeout))).map
    CecResult.benchmark with he4
  set mN := allB.filter
    (fun m => decide (dispatchOf s0 s1 fs m = Dispatch.missing)) with hmN
  have hpartition : (e1 ++ (e2 ++ (e3 ++ e4))).Perm (cec.map CecResult.benchmark) := by
    rw [he1, he2, he3, he4]
    have h0 := (cec_partition cec).map CecResult.benchmark
    rw [List.map_append, List.map_append, List.map_append] at h0
    exact h0
  have hnames : cec.map CecResult.benchmark
      = allB.filter (fun m => !decide (dispatchOf s0 s1 fs m = .missing)) := by
    rw [hcec, List.map_map, hbench, dispatch_filterMap_names]
  have hshuffle : (e1 ++ e2 ++ mN ++ e3 ++ e4).Perm
      (mN ++ (e1 ++ (e2 ++ (e3 ++ e4)))) := by
    have hstep1 : e1 ++ e2 ++ mN ++ e3 ++ e4
        = (e1 ++ e2) ++ (mN ++ (e3 ++ e4)) := by
      simp [List.append_assoc]
    rw [hstep1]
    refine (List.perm_append_comm_assoc (e1 ++ e2) mN (e3 ++ e4)).trans ?_
    refine List.Perm.append_left mN ?_
    simp [List.append_assoc]
  refine hshuffle.trans ?_
  rw [hnames] at hpartition
  refine (List.Perm.append_left mN hpartition).trans ?_
  exact List.filter_append_perm
    (fun m => decide (dispatchOf s0 s1 fs m = Dispatch.missing)) allB

theorem status_map_lookup (s0 s1 : Summary) (allB : List String)
    (fs : String → Bool) (abc : String)
    (oracle : String → String → String → SubprocOutcome)
    (hnd : allB.Nodup) (n : String) :
    (status_map s0 s1 allB fs abc oracle).lookup n
      = if n ∈ allB then some (verdictOf s0 s1 fs abc oracle n) else none := by
  by_cases hn : n ∈ allB
  · rw [if_pos hn]
    refine lookup_eq_some_of_mem_of_nodup ?_ ?_
    · exact ((status_map_keys_perm s0 s1 allB fs abc oracle).nodup_iff).mpr hnd
    · exact (status_map_pair_mem s0 s1 allB fs abc oracle n _).mpr ⟨hn, rfl⟩
  · rw [if_neg hn]
    apply lookup_eq_none_of_not_mem_keys
    intro hmem
    exact hn ((status_map_keys_perm s0 s1 allB fs abc oracle).mem_iff.mp hmem)

theorem run_cec_lookup (summaries : List (String × Summary))
    (fs : String → Bool) (abc : String)
    (oracle : String → String → String → SubprocOutcome)
    (t0 t1 : String) (rest : List String)
    (hts : summaries.map Prod.fst = t0 :: t1 :: rest) (n : String) :
    (run_cec summaries fs abc oracle).lookup n
      = if n ∈ allBenchmarks summaries
        then some (verdictOf ((summaries.lookup t0).getD ⟨none, none, []⟩)
            ((summaries.lookup t1).getD ⟨none, none, []⟩) fs abc oracle n)
        else none := by
  have hrc : run_cec summaries fs abc oracle
      = status_map ((summaries.lookup t0).getD ⟨none, none, []⟩)
          ((summaries.lookup t1).getD ⟨none, none, []⟩)
          (allBenchmarks summaries) fs abc oracle := by
    unfold run_cec
    rw [hts]
  rw [hrc]
  exact status_map_lookup _ _ _ _ _ _ (sortedNames_nodup _) n

/-- C1 counterexample: with tool A reporting benchmarks {x, y} and tool B
reporting {y, z} (all artifacts recorded and on disk), the claim says the
returned verdict map has exactly one entry, keyed y, and that x and z never
appear; but `run_cec` resolves the universe as the union and files the
one-sided x and z under `missing` (lines 51-55 and 119-123), so the map has
three entries and both x and z appear as keys mapped to `missing`. -/
theorem run_cec_counterexample :
    (run_cec [("A", ⟨none, none, [("x", ⟨some "pa", none, []⟩),
          ("y", ⟨some "pb", none, []⟩)]⟩),
        ("B", ⟨none, none, [("y", ⟨some "pc", none, []⟩),
          ("z", ⟨some "pd", none, []⟩)]⟩)]
        (fun _ => true) "abc" (fun _ _ _ => .timeoutExpired)).length = 3 ∧
    (run_cec [("A", ⟨none, none, [("x", ⟨some "pa", none, []⟩),
          ("y", ⟨some "pb", none, []⟩)]⟩),
        ("B", ⟨none, none, [("y", ⟨some "pc", none, []⟩),
          ("z", ⟨some "pd", none, []⟩)]⟩)]
        (fun _ => true) "abc" (fun _ _ _ => .timeoutExpired)).lookup "x"
      = some .missing ∧
    (run_cec [("A", ⟨none, none, [("x", ⟨some "pa", none, []⟩),
          ("y", ⟨some "pb", none, []⟩)]⟩),
        ("B", ⟨none, none, [("y", ⟨some "pc", none, []⟩),
          ("z", ⟨some "pd", none, []⟩)]⟩)]
        (fun _ => true) "abc" (fun _ _ _ => .timeoutExpired)).lookup "z"
      = some .missing := by
  refine ⟨?_, ?_, ?_⟩ <;> decide

/-- C1 amended: for two summaries where tool A has benchmarks {x, y} and
tool B has {y, z} (distinct names, distinct tools), the verdict map has
exactly three entries, keyed x, y and z: the one-sided x and z are mapped
to `missing`, and the shared y is mapped to a real (non-`missing`) verdict
when both artifact paths are recorded and exist on disk (the dispatch is
`check`), or to `missing` otherwise. -/
theorem run_cec_union_keys_amended
    (ta tb x y z : String) (bx by1 by2 bz : BenchData)
    (fs : String → Bool) (abc : String)
    (oracle : String → String → String → SubprocOutcome)
    (hab : ta ≠ tb) (hxy : x ≠ y) (hxz : x ≠ z) (hyz : y ≠ z) :
    (run_cec [(ta, ⟨none, none, [(x, bx), (y, by1)]⟩),
        (tb, ⟨none, none, [(y, by2), (z, bz)]⟩)] fs abc oracle).length = 3 ∧
    (run_cec [(ta, ⟨none, none, [(x, bx), (y, by1)]⟩),
        (tb, ⟨none, none, [(y, by2), (z, bz)]⟩)] fs abc oracle).lookup x
      = some .missing ∧
    (run_cec [(ta, ⟨none, none, [(x, bx), (y, by1)]⟩),
        (tb, ⟨none, none, [(y, by2), (z, bz)]⟩)] fs abc oracle).lookup z
      = some .missing ∧
    (dispatchOf ⟨none, none, [(x, bx), (y, by1)]⟩
        ⟨none, none, [(y, by2), (z, bz)]⟩ fs y = .missing →
      (run_cec [(ta, ⟨none, none, [(x, bx), (y, by1)]⟩),
          (tb, ⟨none, none, [(y, by2), (z, bz)]⟩)] fs abc oracle).lookup y
        = some .missing) ∧
    (∀ a1 a2, dispatchOf ⟨none, none, [(x, bx), (y, by1)]⟩
        ⟨none, none, [(y, by2), (z, bz)]⟩ fs y = .check a1 a2 →
      ∃ v, (run_cec [(ta, ⟨none, none, [(x, bx), (y, by1)]⟩),
          (tb, ⟨none, none, [(y, by2), (z, bz)]⟩)] fs abc oracle).lookup y
        = some v ∧ v ≠ .missing) := by
  have hxy' : (x == y) = false := beq_eq_false_iff_ne.mpr hxy
  have hxz' : (x == z) = false := beq_eq_false_iff_ne.mpr hxz
  have hzx' : (z == x) = false := beq_eq_false_iff_ne.mpr (Ne.symm hxz)
  have hzy' : (z == y) = false := beq_eq_false_iff_ne.mpr (Ne.symm hyz)
  have hba' : (tb == ta) = false := beq_eq_false_iff_ne.mpr (Ne.symm hab)
  have hts : ([(ta, (⟨none, none, [(x, bx), (y, by1)]⟩ : Summary)),
      (tb, ⟨none, none, [(y, by2), (z, bz)]⟩)]).map Prod.fst
      = ta :: tb :: [] := rfl
  have hs0 : (([(ta, (⟨none, none, [(x, bx), (y, by1)]⟩ : Summary)),
      (tb, ⟨none, none, [(y, by2), (z, bz)]⟩)]).lookup ta).getD
      ⟨none, none, []⟩ = ⟨none, none, [(x, bx), (y, by1)]⟩ := by
    simp [List.lookup]
  have hs1 : (([(ta, (⟨none, none, [(x, bx), (y, by1)]⟩ : Summary)),
      (tb, ⟨none, none, [(y, by2), (z, bz)]⟩)]).lookup tb).getD
      ⟨none, none, []⟩ = ⟨none, none, [(y, by2), (z, bz)]⟩ := by
    simp [List.lookup, hba']
  have hlook := fun n => run_cec_lookup
    [(ta, ⟨none, none, [(x, bx), (y, by1)]⟩),
     (tb, ⟨none, none, [(y, by2), (z, bz)]⟩)] fs abc oracle ta tb [] hts n
  rw [hs0, hs1] at hlook
  have hmem : ∀ n : String, n ∈ allBenchmarks
      [(ta, ⟨none, none, [(x, bx), (y, by1)]⟩),
       (tb, ⟨none, none, [(y, by2), (z, bz)]⟩)]
      ↔ n ∈ ([x, y, y, z] : List String) := by
    intro n
    exact mem_sortedNames
  have hmemx : x ∈ allBenchmarks
      [(ta, ⟨none, none, [(x, bx), (y, by1)]⟩),
       (tb, ⟨none, none, [(y, by2), (z, bz)]⟩)] := (hmem x).mpr (by simp)
  have hmemy : y ∈ allBenchmarks
      [(ta, ⟨none, none, [(x, bx), (y, by1)]⟩),
       (tb, ⟨none, none, [(y, by2), (z, bz)]⟩)] := (hmem y).mpr (by simp)
  have hmemz : z ∈ allBenchmarks
      [(ta, ⟨none, none, [(x, bx), (y, by1)]⟩),
       (tb, ⟨none, none, [(y, by2), (z, bz)]⟩)] := (hmem z).mpr (by simp)
  have haigbx : aigOf ⟨none, none, [(y, by2), (z, bz)]⟩ x = none := by
    simp [aigOf, List.lookup, hxy', hxz']
  have haigaz : aigOf ⟨none, none, [(x, bx), (y, by1)]⟩ z = none := by
    simp [aigOf, List.lookup, hzx', hzy']
  have hdx : dispatchOf ⟨none, none, [(x, bx), (y, by1)]⟩
      ⟨none, none, [(y, by2), (z, bz)]⟩ fs x = .missing := by
    cases h2 : aigOf ⟨none, none, [(x, bx), (y, by1)]⟩ x with
    | none => simp [dispatchOf, haigbx, h2]
    | some a => simp [dispatchOf, haigbx, h2]
  have hdz : dispatchOf ⟨none, none, [(x, bx), (y, by1)]⟩
      ⟨none, none, [(y, by2), (z, bz)]⟩ fs z = .missing := by
    cases h2 : aigOf ⟨none, none, [(y, by2), (z, bz)]⟩ z with
    | none => simp [dispatchOf, haigaz, h2]
    | some a => simp [dispatchOf, haigaz, h2]
  refine ⟨?_, ?_, ?_, ?_, ?_⟩
  · have hrc : run_cec [(ta, ⟨none, none, [(x, bx), (y, by1)]⟩),
        (tb, ⟨none, none, [(y, by2), (z, bz)]⟩)] fs abc oracle
        = status_map
            ((([(ta, (⟨none, none, [(x, bx), (y, by1)]⟩ : Summary)),
              (tb, ⟨none, none, [(y, by2), (z, bz)]⟩)]).lookup ta).getD
              ⟨none, none, []⟩)
            ((([(ta, (⟨none, none, [(x, bx), (y, by1)]⟩ : Summary)),
              (tb, ⟨none, none, [(y, by2), (z, bz)]⟩)]).lookup tb).getD
              ⟨none, none, []⟩)
            (allBenchmarks [(ta, ⟨none, none, [(x, bx), (y, by1)]⟩),
              (tb, ⟨none, none, [(y, by2), (z, bz)]⟩)]) fs abc oracle := by
      unfold run_cec
      rw [hts]
    rw [hrc, hs0, hs1]
    have h1 := (status_map_keys_perm ⟨none, none, [(x, bx), (y, by1)]⟩
      ⟨none, none, [(y, by2), (z, bz)]⟩
      (allBenchmarks [(ta, ⟨none, none, [(x, bx), (y, by1)]⟩),
        (tb, ⟨none, none, [(y, by2), (z, bz)]⟩)]) fs abc oracle).length_eq
    rw [List.length_map] at h1
    rw [h1]
    have h2 := (sortedNames_perm_dedup
      (([(ta, (⟨none, none, [(x, bx), (y, by1)]⟩ : Summary)),
        (tb, ⟨none, none, [(y, by2), (z, bz)]⟩)]).flatMap
        (fun ts => ts.2.benchmarks.map Prod.fst))).length_eq
    have h3 : (([(ta, (⟨none, none, [(x, bx), (y, by1)]⟩ : Summary)),
        (tb, ⟨none, none, [(y, by2), (z, bz)]⟩)]).flatMap
        (fun ts => ts.2.benchmarks.map Prod.fst)) = [x, y, y, z] := rfl
    rw [h3] at h2
    have h4 : ([x, y, y, z] : List String).dedup = [x, y, z] := by
      rw [List.dedup_cons_of_not_mem (by simp [hxy, hxz]),
        List.dedup_cons_of_mem (by simp),
        List.dedup_cons_of_not_mem (by simp [hyz]),
        List.dedup_cons_of_not_mem (by simp), List.dedup_nil]
    rw [allBenchmarks, h3, h2, h4]
    rfl
  · rw [hlook x, if_pos hmemx]
    simp [verdictOf, hdx]
  · rw [hlook z, if_pos hmemz]
    simp [verdictOf, hdz]
  · intro hdy
    rw [hlook y, if_pos hmemy]
    simp [verdictOf, hdy]
  · intro a1 a2 hdy
    rw [hlook y, if_pos hmemy]
    refine ⟨(_run_one_cec abc y a1 a2 (oracle y a1 a2)).status, ?_, ?_⟩
    · simp [verdictOf, hdy]
    · rcases run_one_cec_status_not_missing abc y a1 a2 (oracle y a1 a2)
        with hs | hs | hs | hs <;> simp [hs]

/-- Witness for `run_cec_union_keys_amended` at concrete distinct names. -/
theorem run_cec_union_keys_amended_witness :
    ("A" : String) ≠ "B" ∧ ("x" : String) ≠ "y" ∧ ("x" : String) ≠ "z" ∧
    ("y" : String) ≠ "z" ∧
    (run_cec [("A", ⟨none, none, [("x", ⟨some "pa", none, []⟩),
        ("y", ⟨some "pb", none, []⟩)]⟩),
      ("B", ⟨none, none, [("y", ⟨some "pc", none, []⟩),
        ("z", ⟨some "pd", none, []⟩)]⟩)] (fun _ => true) "abc"
      (fun _ _ _ => .timeoutExpired)).lookup "x" = some .missing :=
  ⟨by decide, by decide, by decide, by decide,
    (run_cec_union_keys_amended "A" "B" "x" "y" "z"
      ⟨some "pa", none, []⟩ ⟨some "pb", none, []⟩ ⟨some "pc", none, []⟩
      ⟨some "pd", none, []⟩ (fun _ => true) "abc"
      (fun _ _ _ => .timeoutExpired) (by decide) (by decide) (by decide)
      (by decide)).2.1⟩

end CSTracker
